import Mathlib

/-! The bulk differ and the recipe builder of nsync.

A shallow embedding of `bulk/differ.go` and `recipebuilder/recipe_builder.go`
and the properties proved of them.

* Go maps with string keys are association lists with distinct keys
  (`GoMap`); the iteration order of a Go map is unspecified, the model
  iterates in list order and the theorems only speak of membership.
* The `select` statements of `Diff` are resolved by a script: one entry per
  pass through the outer `select`, saying which case was taken there and at
  the two sends that follow. The end of the script is the close of the
  `desiredFingerprints` channel.
* What `Diff` does to the outside is recorded as a list of events: the
  values sent on the two channels, the value of the `return` statement and
  the two deferred closes.
-/

namespace Nsync

/-! ## Go maps -/

/-- A Go `map[string]β`: an association list. -/
abbrev GoMap (β : Type) := List (String × β)

/-- The comma-ok read `v, found := m[k]`. -/
def mapGet {β : Type} (m : GoMap β) (k : String) : Option β :=
  match m with
  | [] => none
  | (k1, v) :: rest => if k1 = k then some v else mapGet rest k

/-- The builtin `delete(m, k)`. -/
def mapDelete {β : Type} (m : GoMap β) (k : String) : GoMap β :=
  m.filter (fun kv => decide (kv.1 ≠ k))

/-- The assignment `m[k] = v`: an earlier entry for `k` is replaced. -/
def mapSet {β : Type} (m : GoMap β) (k : String) (v : β) : GoMap β :=
  mapDelete m k ++ [(k, v)]

/-- The keys of a map. -/
def mapKeys {β : Type} (m : GoMap β) : List String := m.map Prod.fst

/-! ## bulk/differ.go -/

/-- The fields of `receptor.DesiredLRPResponse` that the differ reads. -/
structure DesiredLRPResponse where
  ProcessGuid : String
  Annotation : String
  deriving DecidableEq, Repr

/-- The type `cc_messages.CCDesiredAppFingerprint`. -/
structure CCDesiredAppFingerprint where
  ProcessGuid : String
  ETag : String
  deriving DecidableEq, Repr

/-- `organizeLRPsByProcessGuid`: index the list by process guid, a later
element overwriting an earlier one with the same guid. -/
def organizeLRPsByProcessGuid (list : List DesiredLRPResponse) : GoMap DesiredLRPResponse :=
  list.foldl (fun result lrp => mapSet result lrp.ProcessGuid lrp) []

/-- The variables of the loop body of `Diff`: the index and the two slices
being built for the current batch. -/
structure BatchState where
  existingLRPs : GoMap DesiredLRPResponse
  missing : List CCDesiredAppFingerprint
  updated : List CCDesiredAppFingerprint
  deriving DecidableEq, Repr

/-- One iteration of `for _, fingerprint := range desired`. -/
def classifyStep (st : BatchState) (fingerprint : CCDesiredAppFingerprint) : BatchState :=
  match mapGet st.existingLRPs fingerprint.ProcessGuid with
  | some desiredLRP =>
    let st1 := { st with existingLRPs := mapDelete st.existingLRPs fingerprint.ProcessGuid }
    if desiredLRP.Annotation = fingerprint.ETag then st1
    else { st1 with updated := st1.updated ++ [fingerprint] }
  | none => { st with missing := st.missing ++ [fingerprint] }

/-- The body of the `desired, ok := <-desiredFingerprints` case up to the
sends: both slices start empty and the fingerprints are taken in order. -/
def classifyBatch (existingLRPs : GoMap DesiredLRPResponse)
    (desired : List CCDesiredAppFingerprint) : BatchState :=
  desired.foldl classifyStep { existingLRPs := existingLRPs, missing := [], updated := [] }

/-- Which case a `select` with a send and `<-cancel` takes. -/
inductive SendChoice where
  | sent
  | cancelled
  deriving DecidableEq, Repr

/-- What the outer `select` takes in one pass of the loop, and for a
received batch, what the two sends that follow take. -/
inductive Input where
  | cancel
  | batch (desired : List CCDesiredAppFingerprint) (missingSel updatedSel : SendChoice)
  deriving DecidableEq, Repr

/-- What `Diff` does to the outside, in the order it happens. -/
inductive Event where
  | sendMissing (fingerprints : List CCDesiredAppFingerprint)
  | sendUpdated (fingerprints : List CCDesiredAppFingerprint)
  | ret (deleteList : List String)
  | closeUpdated
  | closeMissing
  deriving DecidableEq, Repr

/-- The `LOOP` of `Diff` with what follows it, up to the `return`
statement. -/
def diffLoop (existingLRPs : GoMap DesiredLRPResponse) : List Input → List Event
  | [] => [Event.ret (existingLRPs.map (fun kv => kv.2.ProcessGuid))]
  | Input.cancel :: _ => [Event.ret []]
  | Input.batch desired missingSel updatedSel :: rest =>
    let st := classifyBatch existingLRPs desired
    match missingSel with
    | SendChoice.cancelled => [Event.ret []]
    | SendChoice.sent =>
      Event.sendMissing st.missing ::
        (match updatedSel with
         | SendChoice.cancelled => [Event.ret []]
         | SendChoice.sent => Event.sendUpdated st.updated :: diffLoop st.existingLRPs rest)

/-- `differ.Diff`: the index is built, the loop runs, and after the `return`
statement the deferred closes run, last deferred first. -/
def Diff (existing : List DesiredLRPResponse) (script : List Input) : List Event :=
  diffLoop (organizeLRPsByProcessGuid existing) script ++ [Event.closeUpdated, Event.closeMissing]

/-- The lists sent on `missingFingerprints`, in order. -/
def missingStream (t : List Event) : List (List CCDesiredAppFingerprint) :=
  t.filterMap (fun e => match e with | Event.sendMissing l => some l | _ => none)

/-- The lists sent on `updatedFingerprints` (the stale stream), in order. -/
def updatedStream (t : List Event) : List (List CCDesiredAppFingerprint) :=
  t.filterMap (fun e => match e with | Event.sendUpdated l => some l | _ => none)

/-- The values of the `return` statements executed. -/
def returned (t : List Event) : List (List String) :=
  t.filterMap (fun e => match e with | Event.ret l => some l | _ => none)

/-- A run in which every batch is received and both of its sends go
through, after which the input channel is closed. -/
def normalRun (batches : List (List CCDesiredAppFingerprint)) : List Input :=
  batches.map (fun d => Input.batch d SendChoice.sent SendChoice.sent)

/-- Whether the script takes the cancel case at some `select`. -/
def cancelTaken : List Input → Bool
  | [] => false
  | Input.cancel :: _ => true
  | Input.batch _ SendChoice.cancelled _ :: _ => true
  | Input.batch _ SendChoice.sent SendChoice.cancelled :: _ => true
  | Input.batch _ SendChoice.sent SendChoice.sent :: rest => cancelTaken rest

/-- The index with the guids of the fingerprints in `seen` removed. -/
def remainingAfter (m : GoMap DesiredLRPResponse) (seen : List CCDesiredAppFingerprint) :
    GoMap DesiredLRPResponse :=
  m.filter (fun kv => decide (∀ f ∈ seen, f.ProcessGuid ≠ kv.1))

/-- Each element of a list paired with the elements before it. -/
def withEarlier {α : Type} (l : List α) : List (List α × α) := l.inits.zip l

/-- The fingerprints of a batch whose guid is not in the index at the moment
they are looked up: the index `m` the batch starts with, less the guids of
the fingerprints before them in the batch. -/
def missingOf (m : GoMap DesiredLRPResponse) (d : List CCDesiredAppFingerprint) :
    List CCDesiredAppFingerprint :=
  ((withEarlier d).filter
    (fun p => decide (mapGet (remainingAfter m p.1) p.2.ProcessGuid = none))).map Prod.snd

/-- The fingerprints of a batch whose guid is in the index at the moment they
are looked up, with an annotation different from their ETag. -/
def staleOf (m : GoMap DesiredLRPResponse) (d : List CCDesiredAppFingerprint) :
    List CCDesiredAppFingerprint :=
  ((withEarlier d).filter
    (fun p => match mapGet (remainingAfter m p.1) p.2.ProcessGuid with
      | some lrp => decide (lrp.Annotation ≠ p.2.ETag)
      | none => false)).map Prod.snd


/-- The sends of a normal run on the index `m`: for each batch in order, its
missing list and then its stale list, each batch classified against `m` less
the guids named by the batches before it. -/
def normalSends (m : GoMap DesiredLRPResponse) (batches : List (List CCDesiredAppFingerprint)) :
    List Event :=
  ((withEarlier batches).map (fun p =>
    [Event.sendMissing (missingOf (remainingAfter m p.1.flatten) p.2),
     Event.sendUpdated (staleOf (remainingAfter m p.1.flatten) p.2)])).flatten


/-- The fingerprints of a batch matched in sync: those whose guid is in the
index at the moment they are looked up, with an annotation equal to their
ETag. They are sent on neither channel. -/
def inSyncOf (m : GoMap DesiredLRPResponse) (d : List CCDesiredAppFingerprint) :
    List CCDesiredAppFingerprint :=
  ((withEarlier d).filter
    (fun p => match mapGet (remainingAfter m p.1) p.2.ProcessGuid with
      | some lrp => decide (lrp.Annotation = p.2.ETag)
      | none => false)).map Prod.snd

/-- The in-sync matches of a normal run, batch by batch, each batch taken
against the snapshot index less the guids named by the batches before it. -/
def inSyncMatches (existing : List DesiredLRPResponse)
    (batches : List (List CCDesiredAppFingerprint)) : List (List CCDesiredAppFingerprint) :=
  (withEarlier batches).map (fun p =>
    inSyncOf (remainingAfter (organizeLRPsByProcessGuid existing) p.1.flatten) p.2)

/-- How many fingerprints of a list name the guid `g`. -/
def countGuid (g : String) (l : List CCDesiredAppFingerprint) : Nat :=
  l.countP (fun f => decide (f.ProcessGuid = g))

/-- The last element of the snapshot list with the process guid `g`. -/
def lastWithGuid (existing : List DesiredLRPResponse) (g : String) : Option DesiredLRPResponse :=
  existing.reverse.find? (fun lrp => decide (lrp.ProcessGuid = g))

/-- Every fingerprint of every batch has a guid that some element of the
snapshot list has, with an annotation equal to the ETag. -/
def consistentWith (existing : List DesiredLRPResponse)
    (batches : List (List CCDesiredAppFingerprint)) : Prop :=
  ∀ b ∈ batches, ∀ f ∈ b,
    ∃ lrp ∈ existing, lrp.ProcessGuid = f.ProcessGuid ∧ lrp.Annotation = f.ETag

/-- Every fingerprint of every batch has a guid in the snapshot whose last
element in the snapshot list has an annotation equal to the ETag. -/
def consistentWithLast (existing : List DesiredLRPResponse)
    (batches : List (List CCDesiredAppFingerprint)) : Prop :=
  ∀ b ∈ batches, ∀ f ∈ b,
    (lastWithGuid existing f.ProcessGuid).map (fun lrp => lrp.Annotation) = some f.ETag

/-- No process guid is named by more than one fingerprint of the run. -/
def namedOnce (batches : List (List CCDesiredAppFingerprint)) : Prop :=
  (batches.flatten.map (fun f => f.ProcessGuid)).Nodup

/-- The stateless diff, missing part: the fingerprints whose guid is not in
the snapshot. -/
def statelessMissing (existing : List DesiredLRPResponse)
    (desired : List CCDesiredAppFingerprint) : List CCDesiredAppFingerprint :=
  desired.filter (fun f => decide (∀ lrp ∈ existing, lrp.ProcessGuid ≠ f.ProcessGuid))

/-- The stateless diff, stale part: the fingerprints whose guid is in the
snapshot, the entry of the snapshot index for it (the last element with that
guid) having an annotation different from the ETag. -/
def statelessStale (existing : List DesiredLRPResponse)
    (desired : List CCDesiredAppFingerprint) : List CCDesiredAppFingerprint :=
  desired.filter (fun f =>
    match lastWithGuid existing f.ProcessGuid with
    | some lrp => decide (lrp.Annotation ≠ f.ETag)
    | none => false)

/-- The stateless diff, deleted part: whether `g` is a guid of the snapshot
that no fingerprint names. -/
def statelessDeleted (existing : List DesiredLRPResponse)
    (desired : List CCDesiredAppFingerprint) (g : String) : Prop :=
  (∃ lrp ∈ existing, lrp.ProcessGuid = g) ∧ ∀ f ∈ desired, f.ProcessGuid ≠ g

instance (existing : List DesiredLRPResponse) (batches : List (List CCDesiredAppFingerprint)) :
    Decidable (consistentWith existing batches) :=
  inferInstanceAs (Decidable (∀ b ∈ batches, ∀ f ∈ b,
    ∃ lrp ∈ existing, lrp.ProcessGuid = f.ProcessGuid ∧ lrp.Annotation = f.ETag))

instance (existing : List DesiredLRPResponse) (batches : List (List CCDesiredAppFingerprint)) :
    Decidable (consistentWithLast existing batches) :=
  inferInstanceAs (Decidable (∀ b ∈ batches, ∀ f ∈ b,
    (lastWithGuid existing f.ProcessGuid).map (fun lrp => lrp.Annotation) = some f.ETag))

instance (batches : List (List CCDesiredAppFingerprint)) : Decidable (namedOnce batches) :=
  inferInstanceAs (Decidable
    (batches.flatten.map (fun f : CCDesiredAppFingerprint => f.ProcessGuid)).Nodup)

instance (existing : List DesiredLRPResponse) (desired : List CCDesiredAppFingerprint)
    (g : String) : Decidable (statelessDeleted existing desired g) :=
  inferInstanceAs (Decidable
    ((∃ lrp ∈ existing, lrp.ProcessGuid = g) ∧ ∀ f ∈ desired, f.ProcessGuid ≠ g))

/-- Whether an event is the close of a channel. -/
def isClose : Event → Bool
  | Event.closeUpdated => true
  | Event.closeMissing => true
  | _ => false

/-! ## recipebuilder/recipe_builder.go -/

/-- The fields of `net/url.URL` that `convertDockerURI` sets. -/
structure URL where
  Scheme : String
  Path : String
  Fragment : String

/-- What `Build` takes from other packages: the static route of the file
server (`RouteForHandler(FS_STATIC)`: the path of the route, or nothing when
the lookup is not ok), `urljoiner.Join` and `(*url.URL).String`. -/
structure Deps where
  staticRoute : Option String
  urlJoin : String → List String → String
  urlString : URL → String

/-- The type `models.EnvironmentVariable`. -/
structure EnvironmentVariable where
  Name : String
  Value : String
  deriving DecidableEq

/-- The type `cc_messages.DesireAppRequestFromCC`; `int` fields are integers,
the `uint64` field is a natural number. -/
structure DesireAppRequestFromCC where
  ProcessGuid : String
  DropletUri : String
  DockerImageUrl : String
  Stack : String
  StartCommand : String
  ExecutionMetadata : String
  Environment : List EnvironmentVariable
  MemoryMB : Int
  DiskMB : Int
  FileDescriptors : Nat
  NumInstances : Int
  Routes : List String
  LogGuid : String

/-- The actions `Build` makes: `models.DownloadAction`, `models.RunAction`
(with `ResourceLimits.Nofile`, a pointer) and `models.SerialAction`. -/
inductive ExecutorAction where
  | DownloadAction (From To CacheKey : String)
  | RunAction (Path : String) (Args : List String) (Env : List EnvironmentVariable)
      (Nofile : Option Nat)
  | SerialAction (Actions : List ExecutorAction)

/-- The type `models.PortMapping`. -/
structure PortMapping where
  ContainerPort : Nat
  deriving DecidableEq

/-- The type `models.LogConfig`. -/
structure LogConfig where
  Guid : String
  SourceName : String
  deriving DecidableEq

/-- The fields of `models.DesiredLRP` that `Build` sets. An action that is
`nil` is `none`. -/
structure DesiredLRP where
  Domain : String
  ProcessGuid : String
  Instances : Int
  Routes : List String
  CPUWeight : Nat
  MemoryMB : Int
  DiskMB : Int
  Ports : List PortMapping
  RootFSPath : String
  Stack : String
  Log : LogConfig
  Setup : Option ExecutorAction
  Action : Option ExecutorAction
  Monitor : Option ExecutorAction

/-- The zero value `models.DesiredLRP{}`. -/
def zeroLRP : DesiredLRP :=
  { Domain := "", ProcessGuid := "", Instances := 0, Routes := [], CPUWeight := 0,
    MemoryMB := 0, DiskMB := 0, Ports := [], RootFSPath := "", Stack := "",
    Log := { Guid := "", SourceName := "" }, Setup := none, Action := none, Monitor := none }

/-- The three error values of the package. -/
inductive BuildError where
  | ErrNoCircusDefined
  | ErrAppSourceMissing
  | ErrMultipleAppSources
  deriving DecidableEq

/-- The type `RecipeBuilder`, without its logger. -/
structure RecipeBuilder where
  circuses : GoMap String
  dockerCircusPath : String
  fileServerURL : String

def DockerScheme : String := "docker"
def LRPDomain : String := "cf-apps"
def MinCpuProxy : Int := 256
def MaxCpuProxy : Int := 8192

/-- The conversion `uint(x)` of an `int`, on 64 bits. -/
def uint (x : Int) : Nat := (x % 2 ^ 64).toNat

/-- The operand of the conversion in the last line of `cpuWeight`. The
constant `99.0` is untyped and takes the type `int` of the other operand, so
the arithmetic is integer arithmetic and `/` truncates. -/
def cpuWeightRaw (cpuProxy : Int) : Int :=
  Int.tdiv (99 * (cpuProxy - MinCpuProxy)) (MaxCpuProxy - MinCpuProxy) + 1

/-- `cpuWeight`. In the last branch `cpuProxy` lies between the two constants,
so no intermediate value leaves the range of `int`. -/
def cpuWeight (memoryMB : Int) : Nat :=
  let cpuProxy := memoryMB
  if cpuProxy > MaxCpuProxy then 100
  else if cpuProxy < MinCpuProxy then 1
  else uint (cpuWeightRaw cpuProxy)

/-- `strings.LastIndex(s, sep)` for a separator of one character: the place
of its last occurrence, `-1` when there is none. Places count characters;
the separator used is ASCII, so cutting there cuts at the same place as in
Go, where places count bytes. -/
def lastIndex (s : List Char) (sep : Char) : Int :=
  match s with
  | [] => -1
  | x :: rest =>
    let r := lastIndex rest sep
    if r ≥ 0 then r + 1 else if x = sep then 0 else -1

/-- `parseDockerRepositoryTag`. -/
def parseDockerRepositoryTag (repos : String) : String × String :=
  let n := lastIndex repos.data ':'
  if n < 0 then (repos, "")
  else
    let tag := String.mk (repos.data.drop (n.toNat + 1))
    if ¬ ('/' ∈ tag.data) then (String.mk (repos.data.take n.toNat), tag)
    else (repos, "")

/-- `convertDockerURI`. -/
def convertDockerURI (deps : Deps) (dockerURI : String) : String :=
  let rt := parseDockerRepositoryTag dockerURI
  deps.urlString { Scheme := DockerScheme, Path := "/" ++ rt.1, Fragment := rt.2 }

/-- Modelled from the spec: the conversion `Environment.BBSEnvironment` of the
package `cc_messages`, which is not in this repository. Per the spec the
environment of the recipe is "`request.Environment` with three fixed entries
appended", so the conversion keeps every entry, its name, its value and the
order. -/
def BBSEnvironment (env : List EnvironmentVariable) : List EnvironmentVariable :=
  env.map (fun envVar => { Name := envVar.Name, Value := envVar.Value })

/-- `createLrpEnv`. -/
def createLrpEnv (env : List EnvironmentVariable) : List EnvironmentVariable :=
  let env := env ++ [{ Name := "PORT", Value := "8080" }]
  let env := env ++ [{ Name := "VCAP_APP_PORT", Value := "8080" }]
  let env := env ++ [{ Name := "VCAP_APP_HOST", Value := "0.0.0.0" }]
  env

/-- `RecipeBuilder.circusDownloadURL`; `none` is the panic. -/
def circusDownloadURL (deps : Deps) (circusPath : String) (fileServerURL : String) :
    Option String :=
  match deps.staticRoute with
  | none => none
  | some staticRoutePath => some (deps.urlJoin fileServerURL [staticRoutePath, circusPath])

/-- Lines 77 to 152 of `Build`: the recipe made once the source is resolved. -/
def buildLRP (desiredApp : DesireAppRequestFromCC) (rootFSPath circusURL : String) :
    DesiredLRP :=
  let lrpGuid := desiredApp.ProcessGuid
  let numFiles : Option Nat :=
    if desiredApp.FileDescriptors ≠ 0 then some desiredApp.FileDescriptors else none
  let setup : List ExecutorAction := []
  let setup := setup ++ [ExecutorAction.DownloadAction circusURL "/tmp/circus" ""]
  let setup :=
    if desiredApp.DropletUri ≠ "" then
      setup ++ [ExecutorAction.DownloadAction desiredApp.DropletUri "." ("droplets-" ++ lrpGuid)]
    else setup
  let action := ExecutorAction.RunAction "/tmp/circus/soldier"
    (["/app"] ++ [desiredApp.StartCommand, desiredApp.ExecutionMetadata])
    (createLrpEnv (BBSEnvironment desiredApp.Environment)) numFiles
  let monitor := ExecutorAction.RunAction "/tmp/circus/spy" ["-addr=:8080"] [] none
  { Domain := "cf-apps",
    ProcessGuid := lrpGuid,
    Instances := desiredApp.NumInstances,
    Routes := desiredApp.Routes,
    CPUWeight := cpuWeight desiredApp.MemoryMB,
    MemoryMB := desiredApp.MemoryMB,
    DiskMB := desiredApp.DiskMB,
    Ports := [{ ContainerPort := 8080 }],
    RootFSPath := rootFSPath,
    Stack := desiredApp.Stack,
    Log := { Guid := desiredApp.LogGuid, SourceName := "App" },
    Setup := some (ExecutorAction.SerialAction setup),
    Action := some action,
    Monitor := some monitor }

/-- `RecipeBuilder.Build`. The result is the pair that Go returns, the recipe
and the error (`none` for `nil`); the whole is `none` when the call panics. -/
def Build (deps : Deps) (b : RecipeBuilder) (desiredApp : DesireAppRequestFromCC) :
    Option (DesiredLRP × Option BuildError) :=
  if desiredApp.DropletUri = "" ∧ desiredApp.DockerImageUrl = "" then
    some (zeroLRP, some BuildError.ErrAppSourceMissing)
  else if desiredApp.DropletUri ≠ "" ∧ desiredApp.DockerImageUrl ≠ "" then
    some (zeroLRP, some BuildError.ErrMultipleAppSources)
  else if desiredApp.DockerImageUrl ≠ "" then
    match circusDownloadURL deps b.dockerCircusPath b.fileServerURL with
    | none => none
    | some circusURL =>
      let rootFSPath := convertDockerURI deps desiredApp.DockerImageUrl
      some (buildLRP desiredApp rootFSPath circusURL, none)
  else
    match mapGet b.circuses desiredApp.Stack with
    | none => some (zeroLRP, some BuildError.ErrNoCircusDefined)
    | some circusPath =>
      match circusDownloadURL deps circusPath b.fileServerURL with
      | none => none
      | some circusURL => some (buildLRP desiredApp "" circusURL, none)

/-! ### Reference versions of the library functions -/

/-- The bytes of the UTF-8 encoding of a code point. -/
def utf8Bytes (n : Nat) : List Nat :=
  if n < 128 then [n]
  else if n < 2048 then [192 + n / 64, 128 + n % 64]
  else if n < 65536 then [224 + n / 4096, 128 + n / 64 % 64, 128 + n % 64]
  else [240 + n / 262144, 128 + n / 4096 % 64, 128 + n / 64 % 64, 128 + n % 64]

/-- The function `shouldEscape` of `net/url` for the two modes that
`String` uses here, the path and the fragment. -/
def shouldEscape (c : Nat) (fragmentMode : Bool) : Bool :=
  if (65 ≤ c ∧ c ≤ 90) ∨ (97 ≤ c ∧ c ≤ 122) ∨ (48 ≤ c ∧ c ≤ 57) then false
  else if c ∈ ['-'.toNat, '_'.toNat, '.'.toNat, '~'.toNat] then false
  else if c ∈ "$&+,/:;=?@".data.map Char.toNat then
    (if fragmentMode then false else decide (c = '?'.toNat))
  else true

/-- An upper-case hexadecimal digit. -/
def hexDigit (n : Nat) : Char := "0123456789ABCDEF".data.getD n '0'

/-- The function `escape` of `net/url` for the path and the fragment: a byte
that must be escaped becomes `%` and two hexadecimal digits. -/
def urlEscape (s : String) (fragmentMode : Bool) : String :=
  String.mk ((s.data.flatMap (fun ch => utf8Bytes ch.toNat)).flatMap (fun c =>
    if shouldEscape c fragmentMode then ['%', hexDigit (c / 16), hexDigit (c % 16)]
    else [Char.ofNat c]))

/-- Reference version of `(*url.URL).String` for a URL with a scheme and no
opaque part, user, host or query, as `convertDockerURI` makes it. -/
def goURLString (u : URL) : String :=
  (if u.Scheme ≠ "" then u.Scheme ++ "://" else "") ++ urlEscape u.Path false ++
    (if u.Fragment ≠ "" then "#" ++ urlEscape u.Fragment true else "")

/-- The collaborators as the tests of the repository see them: the static
route is `/v1/static/`, and joining is concatenation, which is what
`urljoiner.Join` gives on the arguments used there. -/
def testDeps : Deps :=
  { staticRoute := some "/v1/static/",
    urlJoin := fun base paths => base ++ String.join paths,
    urlString := goURLString }

/-- The builder of `recipe_builder_test.go`. -/
def testBuilder : RecipeBuilder :=
  { circuses := [("some-stack", "some-circus.tgz")],
    dockerCircusPath := "the/docker/circus/path.tgz",
    fileServerURL := "http://file-server.com" }

/-- The request of `recipe_builder_test.go`. -/
def testRequest : DesireAppRequestFromCC :=
  { ProcessGuid := "the-app-guid-the-app-version",
    DropletUri := "http://the-droplet.uri.com",
    DockerImageUrl := "",
    Stack := "some-stack",
    StartCommand := "the-start-command with-arguments",
    ExecutionMetadata := "the-execution-metadata",
    Environment := [{ Name := "foo", Value := "bar" }],
    MemoryMB := 128,
    DiskMB := 512,
    FileDescriptors := 32,
    NumInstances := 23,
    Routes := ["route1", "route2"],
    LogGuid := "the-log-id" }

/-! ## Lemmas on maps and on the loop of the differ -/

theorem mapGet_eq_none_iff {β : Type} (m : GoMap β) (k : String) :
    mapGet m k = none ↔ k ∉ mapKeys m := by
  induction m with
  | nil => simp [mapGet, mapKeys]
  | cons kv rest ih =>
    obtain ⟨k1, v⟩ := kv
    by_cases h : k1 = k
    · simp [mapGet, mapKeys, h]
    · simp only [mapGet, h, if_false, ih]
      simp [mapKeys, Ne.symm h]

theorem mapGet_filter {β : Type} (m : GoMap β) (p : String → Bool) (k : String) :
    mapGet (m.filter (fun kv => p kv.1)) k = if p k then mapGet m k else none := by
  induction m with
  | nil => simp [mapGet]
  | cons kv rest ih =>
    obtain ⟨k1, v⟩ := kv
    by_cases hp : p k1 = true
    · by_cases h : k1 = k
      · subst h; simp [List.filter, hp, mapGet]
      · simp [List.filter, hp, mapGet, h, ih]
    · by_cases h : k1 = k
      · subst h; simp [List.filter, hp, mapGet, ih]
      · simp [List.filter, hp, mapGet, h, ih]

theorem mapGet_mapDelete {β : Type} (m : GoMap β) (k k1 : String) :
    mapGet (mapDelete m k) k1 = if k1 = k then none else mapGet m k1 := by
  unfold mapDelete
  rw [mapGet_filter m (fun x => decide (x ≠ k)) k1]
  by_cases h : k1 = k <;> simp [h]

theorem mapDelete_of_get_none {β : Type} (m : GoMap β) (k : String)
    (h : mapGet m k = none) : mapDelete m k = m := by
  rw [mapGet_eq_none_iff] at h
  unfold mapDelete
  rw [List.filter_eq_self]
  intro kv hkv
  simp only [decide_eq_true_eq]
  intro hk
  exact h (by rw [← hk]; exact List.mem_map_of_mem Prod.fst hkv)

theorem remainingAfter_nil (m : GoMap DesiredLRPResponse) : remainingAfter m [] = m := by
  simp [remainingAfter]

theorem remainingAfter_cons (m : GoMap DesiredLRPResponse) (f : CCDesiredAppFingerprint)
    (seen : List CCDesiredAppFingerprint) :
    remainingAfter m (f :: seen) = remainingAfter (mapDelete m f.ProcessGuid) seen := by
  simp only [remainingAfter, mapDelete, List.filter_filter]
  congr 1
  funext kv
  simp only [List.mem_cons, forall_eq_or_imp, Bool.decide_and, ne_eq]
  by_cases h : f.ProcessGuid = kv.1
  · simp [h]
  · have h2 : ¬ kv.1 = f.ProcessGuid := fun e => h e.symm
    simp [h, h2]

theorem remainingAfter_append (m : GoMap DesiredLRPResponse)
    (a b : List CCDesiredAppFingerprint) :
    remainingAfter m (a ++ b) = remainingAfter (remainingAfter m a) b := by
  induction a generalizing m with
  | nil => simp [remainingAfter_nil]
  | cons f a ih => simp [remainingAfter_cons, ih]

theorem foldl_classifyStep (d : List CCDesiredAppFingerprint) (st : BatchState) :
    d.foldl classifyStep st =
      { existingLRPs := (classifyBatch st.existingLRPs d).existingLRPs,
        missing := st.missing ++ (classifyBatch st.existingLRPs d).missing,
        updated := st.updated ++ (classifyBatch st.existingLRPs d).updated } := by
  induction d generalizing st with
  | nil => simp [classifyBatch]
  | cons f d ih =>
    simp only [classifyBatch, List.foldl_cons]
    rw [ih (classifyStep st f), ih (classifyStep _ f)]
    unfold classifyStep
    cases hg : mapGet st.existingLRPs f.ProcessGuid with
    | none => simp [hg, classifyBatch]
    | some lrp =>
      by_cases he : lrp.Annotation = f.ETag <;> simp [hg, he, classifyBatch]

theorem classifyBatch_nil (m : GoMap DesiredLRPResponse) :
    classifyBatch m [] = { existingLRPs := m, missing := [], updated := [] } := rfl

theorem classifyBatch_cons (m : GoMap DesiredLRPResponse) (f : CCDesiredAppFingerprint)
    (d : List CCDesiredAppFingerprint) :
    classifyBatch m (f :: d) =
      { existingLRPs := (classifyBatch (mapDelete m f.ProcessGuid) d).existingLRPs,
        missing := (if mapGet m f.ProcessGuid = none then [f] else []) ++
          (classifyBatch (mapDelete m f.ProcessGuid) d).missing,
        updated := (match mapGet m f.ProcessGuid with
            | some lrp => if lrp.Annotation = f.ETag then [] else [f]
            | none => []) ++
          (classifyBatch (mapDelete m f.ProcessGuid) d).updated } := by
  conv_lhs => unfold classifyBatch
  rw [List.foldl_cons, foldl_classifyStep]
  unfold classifyStep
  cases hg : mapGet m f.ProcessGuid with
  | none => simp [hg, mapDelete_of_get_none m _ hg]
  | some lrp =>
    by_cases he : lrp.Annotation = f.ETag <;> simp [hg, he]

theorem withEarlier_nil {α : Type} : withEarlier ([] : List α) = [] := by
  simp [withEarlier]

theorem withEarlier_cons {α : Type} (a : α) (l : List α) :
    withEarlier (a :: l) = ([], a) :: (withEarlier l).map (Prod.map (fun t => a :: t) id) := by
  simp [withEarlier, List.inits_cons, List.zip_map_left]

theorem missingOf_cons (m : GoMap DesiredLRPResponse) (f : CCDesiredAppFingerprint)
    (d : List CCDesiredAppFingerprint) :
    missingOf m (f :: d) = (if mapGet m f.ProcessGuid = none then [f] else []) ++
      missingOf (mapDelete m f.ProcessGuid) d := by
  unfold missingOf
  rw [withEarlier_cons, List.filter_cons]
  simp only [remainingAfter_nil, List.filter_map, List.map_map]
  have h : ((fun p : List CCDesiredAppFingerprint × CCDesiredAppFingerprint =>
        decide (mapGet (remainingAfter m p.1) p.2.ProcessGuid = none)) ∘
        Prod.map (fun t => f :: t) id) =
      (fun p => decide (mapGet (remainingAfter (mapDelete m f.ProcessGuid) p.1)
        p.2.ProcessGuid = none)) := by
    funext p
    simp [Function.comp, remainingAfter_cons]
  rw [h]
  have h2 : ∀ l : List (List CCDesiredAppFingerprint × CCDesiredAppFingerprint),
      List.map Prod.snd (List.map (Prod.map (fun t => f :: t) id) l) = List.map Prod.snd l := by
    intro l; simp [List.map_map, Function.comp]
  by_cases hg : mapGet m f.ProcessGuid = none <;> simp [hg, h2]

theorem staleOf_cons (m : GoMap DesiredLRPResponse) (f : CCDesiredAppFingerprint)
    (d : List CCDesiredAppFingerprint) :
    staleOf m (f :: d) = (match mapGet m f.ProcessGuid with
        | some lrp => if lrp.Annotation = f.ETag then [] else [f]
        | none => []) ++
      staleOf (mapDelete m f.ProcessGuid) d := by
  unfold staleOf
  rw [withEarlier_cons, List.filter_cons]
  simp only [remainingAfter_nil, List.filter_map, List.map_map]
  have h : ((fun p : List CCDesiredAppFingerprint × CCDesiredAppFingerprint =>
        match mapGet (remainingAfter m p.1) p.2.ProcessGuid with
        | some lrp => decide (lrp.Annotation ≠ p.2.ETag)
        | none => false) ∘
        Prod.map (fun t => f :: t) id) =
      (fun p => match mapGet (remainingAfter (mapDelete m f.ProcessGuid) p.1)
          p.2.ProcessGuid with
        | some lrp => decide (lrp.Annotation ≠ p.2.ETag)
        | none => false) := by
    funext p
    simp [Function.comp, remainingAfter_cons]
  rw [h]
  have h2 : ∀ l : List (List CCDesiredAppFingerprint × CCDesiredAppFingerprint),
      List.map Prod.snd (List.map (Prod.map (fun t => f :: t) id) l) = List.map Prod.snd l := by
    intro l; simp [List.map_map, Function.comp]
  cases hg : mapGet m f.ProcessGuid with
  | none => simp [h2]
  | some lrp => by_cases he : lrp.Annotation = f.ETag <;> simp [he, h2]

theorem classifyBatch_eq (m : GoMap DesiredLRPResponse) (d : List CCDesiredAppFingerprint) :
    classifyBatch m d =
      { existingLRPs := remainingAfter m d, missing := missingOf m d, updated := staleOf m d } := by
  induction d generalizing m with
  | nil => simp [classifyBatch_nil, remainingAfter_nil, missingOf, staleOf, withEarlier_nil]
  | cons f d ih =>
    rw [classifyBatch_cons, ih, missingOf_cons, staleOf_cons, remainingAfter_cons]

theorem normalSends_nil (m : GoMap DesiredLRPResponse) : normalSends m [] = [] := by
  simp [normalSends, withEarlier_nil]

theorem normalSends_cons (m : GoMap DesiredLRPResponse) (b : List CCDesiredAppFingerprint)
    (bs : List (List CCDesiredAppFingerprint)) :
    normalSends m (b :: bs) =
      Event.sendMissing (missingOf m b) :: Event.sendUpdated (staleOf m b) ::
        normalSends (remainingAfter m b) bs := by
  simp only [normalSends, withEarlier_cons, List.map_cons, List.flatten_cons, List.flatten_nil,
    remainingAfter_nil, List.map_map, List.cons_append, List.nil_append]
  congr 3
  apply List.map_congr_left
  intro p _
  simp [Function.comp, remainingAfter_append]

theorem diffLoop_normalRun (m : GoMap DesiredLRPResponse)
    (bs : List (List CCDesiredAppFingerprint)) :
    diffLoop m (normalRun bs) =
      normalSends m bs ++
        [Event.ret ((remainingAfter m bs.flatten).map (fun kv => kv.2.ProcessGuid))] := by
  induction bs generalizing m with
  | nil => simp [normalRun, diffLoop, normalSends_nil, remainingAfter_nil]
  | cons b bs ih =>
    have ih2 := ih (remainingAfter m b)
    simp only [normalRun] at ih2
    simp only [normalRun, List.map_cons, diffLoop, classifyBatch_eq, normalSends_cons,
      List.flatten_cons, remainingAfter_append, List.cons_append, ih2]

theorem missingStream_normalSends (m : GoMap DesiredLRPResponse)
    (bs : List (List CCDesiredAppFingerprint)) :
    missingStream (normalSends m bs) =
      (withEarlier bs).map (fun p => missingOf (remainingAfter m p.1.flatten) p.2) := by
  induction bs generalizing m with
  | nil => simp [normalSends_nil, withEarlier_nil, missingStream]
  | cons b bs ih =>
    have ih2 := ih (remainingAfter m b)
    simp only [missingStream] at ih2
    simp [normalSends_cons, missingStream, withEarlier_cons, remainingAfter_nil, ih2,
      List.map_map, Function.comp, remainingAfter_append]

theorem updatedStream_normalSends (m : GoMap DesiredLRPResponse)
    (bs : List (List CCDesiredAppFingerprint)) :
    updatedStream (normalSends m bs) =
      (withEarlier bs).map (fun p => staleOf (remainingAfter m p.1.flatten) p.2) := by
  induction bs generalizing m with
  | nil => simp [normalSends_nil, withEarlier_nil, updatedStream]
  | cons b bs ih =>
    have ih2 := ih (remainingAfter m b)
    simp only [updatedStream] at ih2
    simp [normalSends_cons, updatedStream, withEarlier_cons, remainingAfter_nil, ih2,
      List.map_map, Function.comp, remainingAfter_append]

theorem returned_normalSends (m : GoMap DesiredLRPResponse)
    (bs : List (List CCDesiredAppFingerprint)) : returned (normalSends m bs) = [] := by
  induction bs generalizing m with
  | nil => simp [normalSends_nil, returned]
  | cons b bs ih =>
    have ih2 := ih (remainingAfter m b)
    simp only [returned] at ih2
    simp [normalSends_cons, returned, ih2]

theorem length_withEarlier {α : Type} (l : List α) : (withEarlier l).length = l.length := by
  simp [withEarlier, List.length_zip]

theorem withEarlier_append_cons {α : Type} (pre : List α) (d : α) (post : List α) :
    (withEarlier (pre ++ d :: post))[pre.length]? = some (pre, d) := by
  induction pre with
  | nil => simp [withEarlier_cons]
  | cons a pre ih =>
    simp only [List.cons_append, withEarlier_cons, List.length_cons, List.getElem?_cons_succ,
      List.getElem?_map, ih]
    simp

theorem Diff_normalRun (existing : List DesiredLRPResponse)
    (bs : List (List CCDesiredAppFingerprint)) :
    Diff existing (normalRun bs) =
      normalSends (organizeLRPsByProcessGuid existing) bs ++
        [Event.ret ((remainingAfter (organizeLRPsByProcessGuid existing) bs.flatten).map
            (fun kv => kv.2.ProcessGuid)),
          Event.closeUpdated, Event.closeMissing] := by
  simp [Diff, diffLoop_normalRun]

theorem missingStream_Diff_normalRun (existing : List DesiredLRPResponse)
    (bs : List (List CCDesiredAppFingerprint)) :
    missingStream (Diff existing (normalRun bs)) =
      (withEarlier bs).map (fun p =>
        missingOf (remainingAfter (organizeLRPsByProcessGuid existing) p.1.flatten) p.2) := by
  rw [Diff_normalRun, ← missingStream_normalSends]
  simp [missingStream, List.filterMap_append]

theorem updatedStream_Diff_normalRun (existing : List DesiredLRPResponse)
    (bs : List (List CCDesiredAppFingerprint)) :
    updatedStream (Diff existing (normalRun bs)) =
      (withEarlier bs).map (fun p =>
        staleOf (remainingAfter (organizeLRPsByProcessGuid existing) p.1.flatten) p.2) := by
  rw [Diff_normalRun, ← updatedStream_normalSends]
  simp [updatedStream, List.filterMap_append]

theorem returned_Diff_normalRun (existing : List DesiredLRPResponse)
    (bs : List (List CCDesiredAppFingerprint)) :
    returned (Diff existing (normalRun bs)) =
      [(remainingAfter (organizeLRPsByProcessGuid existing) bs.flatten).map
        (fun kv => kv.2.ProcessGuid)] := by
  have h := returned_normalSends (organizeLRPsByProcessGuid existing) bs
  simp only [returned] at h
  rw [Diff_normalRun]
  simp [returned, List.filterMap_append, h]

theorem mapKeys_mapSet {β : Type} (m : GoMap β) (k : String) (v : β) :
    mapKeys (mapSet m k v) = (mapKeys m).filter (fun x => decide (x ≠ k)) ++ [k] := by
  simp only [mapKeys, mapSet, mapDelete, List.map_append, List.map_cons, List.map_nil,
    List.filter_map]
  rfl

theorem nodup_mapKeys_mapSet {β : Type} (m : GoMap β) (k : String) (v : β)
    (h : (mapKeys m).Nodup) : (mapKeys (mapSet m k v)).Nodup := by
  rw [mapKeys_mapSet]
  apply List.Nodup.append (h.filter _) (List.nodup_singleton k)
  intro x hx hk
  simp at hx hk
  exact hx.2 hk

theorem organize_foldl_spec (list : List DesiredLRPResponse) (acc : GoMap DesiredLRPResponse)
    (hn : (mapKeys acc).Nodup) (hk : ∀ kv ∈ acc, kv.2.ProcessGuid = kv.1) :
    (mapKeys (list.foldl (fun result lrp => mapSet result lrp.ProcessGuid lrp) acc)).Nodup ∧
    (∀ kv ∈ list.foldl (fun result lrp => mapSet result lrp.ProcessGuid lrp) acc,
      kv.2.ProcessGuid = kv.1) ∧
    (∀ g, g ∈ mapKeys (list.foldl (fun result lrp => mapSet result lrp.ProcessGuid lrp) acc) ↔
      g ∈ mapKeys acc ∨ ∃ lrp ∈ list, lrp.ProcessGuid = g) := by
  induction list generalizing acc with
  | nil => exact ⟨hn, hk, fun g => by simp⟩
  | cons l list ih =>
    have hn2 := nodup_mapKeys_mapSet acc l.ProcessGuid l hn
    have hk2 : ∀ kv ∈ mapSet acc l.ProcessGuid l, kv.2.ProcessGuid = kv.1 := by
      intro kv hkv
      simp only [mapSet, mapDelete, List.mem_append, List.mem_filter, List.mem_singleton] at hkv
      rcases hkv with h | h
      · exact hk kv h.1
      · subst h; rfl
    obtain ⟨h1, h2, h3⟩ := ih (mapSet acc l.ProcessGuid l) hn2 hk2
    refine ⟨h1, h2, ?_⟩
    intro g
    rw [List.foldl_cons, h3 g, mapKeys_mapSet]
    simp only [List.mem_append, List.mem_filter, List.mem_singleton, decide_eq_true_eq,
      List.mem_cons, exists_eq_or_imp]
    by_cases hg : g = l.ProcessGuid
    · simp [hg]
    · have hg2 : ¬ l.ProcessGuid = g := fun e => hg e.symm
      simp [hg, hg2]

theorem organize_spec (existing : List DesiredLRPResponse) :
    (mapKeys (organizeLRPsByProcessGuid existing)).Nodup ∧
    (∀ kv ∈ organizeLRPsByProcessGuid existing, kv.2.ProcessGuid = kv.1) ∧
    (∀ g, g ∈ mapKeys (organizeLRPsByProcessGuid existing) ↔
      ∃ lrp ∈ existing, lrp.ProcessGuid = g) := by
  have h := organize_foldl_spec existing [] (by simp [mapKeys]) (by simp)
  simpa [organizeLRPsByProcessGuid, mapKeys] using h

theorem deleteList_eq_keys (m : GoMap DesiredLRPResponse)
    (hk : ∀ kv ∈ m, kv.2.ProcessGuid = kv.1) (seen : List CCDesiredAppFingerprint) :
    (remainingAfter m seen).map (fun kv => kv.2.ProcessGuid) = mapKeys (remainingAfter m seen) := by
  unfold mapKeys
  apply List.map_congr_left
  intro kv hkv
  exact hk kv (List.mem_of_mem_filter hkv)

theorem mem_mapKeys_remainingAfter (m : GoMap DesiredLRPResponse)
    (seen : List CCDesiredAppFingerprint) (g : String) :
    g ∈ mapKeys (remainingAfter m seen) ↔ g ∈ mapKeys m ∧ ∀ f ∈ seen, f.ProcessGuid ≠ g := by
  simp only [mapKeys, remainingAfter, List.mem_map, List.mem_filter, decide_eq_true_eq]
  constructor
  · rintro ⟨kv, ⟨h1, h2⟩, rfl⟩
    exact ⟨⟨kv, h1, rfl⟩, h2⟩
  · rintro ⟨⟨kv, h1, rfl⟩, h2⟩
    exact ⟨kv, ⟨h1, h2⟩, rfl⟩

theorem nodup_mapKeys_remainingAfter (m : GoMap DesiredLRPResponse)
    (seen : List CCDesiredAppFingerprint) (h : (mapKeys m).Nodup) :
    (mapKeys (remainingAfter m seen)).Nodup := by
  unfold mapKeys remainingAfter
  exact List.Nodup.sublist (List.Sublist.map _ (List.filter_sublist _)) h

/-- C1. Exhaustive deletion: after any batches and a normal close, `Diff`
returns one list; it has no duplicates and holds exactly the process guids of
the snapshot that no fingerprint of any batch names. -/
theorem C1_exhaustive_deletion (existing : List DesiredLRPResponse)
    (batches : List (List CCDesiredAppFingerprint)) :
    ∃ deleted, returned (Diff existing (normalRun batches)) = [deleted] ∧ deleted.Nodup ∧
      ∀ g, g ∈ deleted ↔
        (∃ lrp ∈ existing, lrp.ProcessGuid = g) ∧
          ∀ b ∈ batches, ∀ f ∈ b, f.ProcessGuid ≠ g := by
  obtain ⟨h1, h2, h3⟩ := organize_spec existing
  refine ⟨_, returned_Diff_normalRun existing batches, ?_, ?_⟩
  · rw [deleteList_eq_keys _ h2]
    exact nodup_mapKeys_remainingAfter _ _ h1
  · intro g
    rw [deleteList_eq_keys _ h2, mem_mapKeys_remainingAfter, h3 g]
    simp only [List.mem_flatten]
    constructor
    · rintro ⟨ha, hb⟩
      exact ⟨ha, fun b hb1 f hf => hb f ⟨b, hb1, hf⟩⟩
    · rintro ⟨ha, hb⟩
      exact ⟨ha, fun f ⟨b, hb1, hf⟩ => hb b hb1 f hf⟩

theorem returned_diffLoop_cancel (m : GoMap DesiredLRPResponse) (script : List Input)
    (h : cancelTaken script = true) : returned (diffLoop m script) = [[]] := by
  induction script generalizing m with
  | nil => simp [cancelTaken] at h
  | cons i rest ih =>
    cases i with
    | cancel => simp [diffLoop, returned]
    | batch d s1 s2 =>
      cases s1 with
      | cancelled => simp [diffLoop, returned]
      | sent =>
        cases s2 with
        | cancelled => simp [diffLoop, returned]
        | sent =>
          simp only [cancelTaken] at h
          have ih2 := ih (classifyBatch m d).existingLRPs h
          simp only [returned] at ih2
          simp [diffLoop, returned, ih2]

/-- C3. Cancellation never deletes: whenever the cancel case is taken at one
of the three selects, the one value `Diff` returns is the empty list,
whatever the snapshot and the batches before. -/
theorem C3_cancel_returns_empty (existing : List DesiredLRPResponse) (script : List Input)
    (h : cancelTaken script = true) : returned (Diff existing script) = [[]] := by
  have h1 := returned_diffLoop_cancel (organizeLRPsByProcessGuid existing) script h
  simp only [returned] at h1
  simp [Diff, returned, List.filterMap_append, h1]

/-- Witness of C3: a snapshot with two unmatched entries and a cancel taken at
the send of the stale list. -/
theorem C3_cancel_returns_empty_witness :
    cancelTaken [Input.batch [⟨"Z", "e9"⟩] SendChoice.sent SendChoice.cancelled] = true ∧
    returned (Diff [⟨"A", "e1"⟩, ⟨"B", "e1"⟩]
      [Input.batch [⟨"Z", "e9"⟩] SendChoice.sent SendChoice.cancelled]) = [[]] :=
  ⟨by decide, C3_cancel_returns_empty _ _ (by decide)⟩

theorem missingStream_getElem (existing : List DesiredLRPResponse)
    (pre : List (List CCDesiredAppFingerprint)) (d : List CCDesiredAppFingerprint)
    (post : List (List CCDesiredAppFingerprint)) :
    (missingStream (Diff existing (normalRun (pre ++ d :: post))))[pre.length]? =
      some (missingOf (remainingAfter (organizeLRPsByProcessGuid existing) pre.flatten) d) := by
  rw [missingStream_Diff_normalRun, List.getElem?_map, withEarlier_append_cons]
  rfl

theorem updatedStream_getElem (existing : List DesiredLRPResponse)
    (pre : List (List CCDesiredAppFingerprint)) (d : List CCDesiredAppFingerprint)
    (post : List (List CCDesiredAppFingerprint)) :
    (updatedStream (Diff existing (normalRun (pre ++ d :: post))))[pre.length]? =
      some (staleOf (remainingAfter (organizeLRPsByProcessGuid existing) pre.flatten) d) := by
  rw [updatedStream_Diff_normalRun, List.getElem?_map, withEarlier_append_cons]
  rfl

/-- C2. Per-batch classification: in a normal run, the list sent on the
missing channel for a batch is exactly its fingerprints whose guid is not in
the index when they are looked up, the list sent on the stale channel is
exactly those found there with a different annotation, both in input order
(a fingerprint found with an equal annotation is in neither), where the index
at a lookup is the snapshot index less every guid named earlier, in the
batches before or in this batch; the loop body leaves the index without the
guids of the batch. The two examples of the claim are evaluated. -/
theorem C2_batch_classification (existing : List DesiredLRPResponse)
    (pre : List (List CCDesiredAppFingerprint)) (d : List CCDesiredAppFingerprint)
    (post : List (List CCDesiredAppFingerprint)) :
    (missingStream (Diff existing (normalRun (pre ++ d :: post))))[pre.length]? =
        some (missingOf (remainingAfter (organizeLRPsByProcessGuid existing) pre.flatten) d) ∧
    (updatedStream (Diff existing (normalRun (pre ++ d :: post))))[pre.length]? =
        some (staleOf (remainingAfter (organizeLRPsByProcessGuid existing) pre.flatten) d) ∧
    classifyBatch (remainingAfter (organizeLRPsByProcessGuid existing) pre.flatten) d =
      { existingLRPs :=
          remainingAfter (remainingAfter (organizeLRPsByProcessGuid existing) pre.flatten) d,
        missing := missingOf (remainingAfter (organizeLRPsByProcessGuid existing) pre.flatten) d,
        updated := staleOf (remainingAfter (organizeLRPsByProcessGuid existing) pre.flatten) d } ∧
    Diff [⟨"A", "e1"⟩] (normalRun [[⟨"A", "e1"⟩, ⟨"X", "eX"⟩, ⟨"Y", "eY"⟩]]) =
      [Event.sendMissing [⟨"X", "eX"⟩, ⟨"Y", "eY"⟩], Event.sendUpdated [], Event.ret [],
        Event.closeUpdated, Event.closeMissing] ∧
    Diff [⟨"A", "e1"⟩] (normalRun [[⟨"A", "e2"⟩]]) =
      [Event.sendMissing [], Event.sendUpdated [⟨"A", "e2"⟩], Event.ret [],
        Event.closeUpdated, Event.closeMissing] := by
  exact ⟨missingStream_getElem existing pre d post, updatedStream_getElem existing pre d post,
    classifyBatch_eq _ _, by decide, by decide⟩

/-- C4. One emission per batch, in order: a normal run over `n` batches does
exactly this: for each batch in order it sends the batch's missing list and
then its stale list (empty lists included), then executes the one `return`,
then closes the two channels. So each stream carries `n` lists, the i-th
being the classification of the i-th batch, and no value is returned before
the sends are over. -/
theorem C4_one_emission_per_batch (existing : List DesiredLRPResponse)
    (batches : List (List CCDesiredAppFingerprint)) :
    Diff existing (normalRun batches) =
      normalSends (organizeLRPsByProcessGuid existing) batches ++
        [Event.ret ((remainingAfter (organizeLRPsByProcessGuid existing) batches.flatten).map
            (fun kv => kv.2.ProcessGuid)),
          Event.closeUpdated, Event.closeMissing] ∧
    returned (normalSends (organizeLRPsByProcessGuid existing) batches) = [] ∧
    (returned (Diff existing (normalRun batches))).length = 1 ∧
    (missingStream (Diff existing (normalRun batches))).length = batches.length ∧
    (updatedStream (Diff existing (normalRun batches))).length = batches.length ∧
    missingStream (Diff existing (normalRun batches)) =
      (withEarlier batches).map (fun p =>
        missingOf (remainingAfter (organizeLRPsByProcessGuid existing) p.1.flatten) p.2) ∧
    updatedStream (Diff existing (normalRun batches)) =
      (withEarlier batches).map (fun p =>
        staleOf (remainingAfter (organizeLRPsByProcessGuid existing) p.1.flatten) p.2) ∧
    Diff [⟨"A", "e1"⟩] (normalRun [[⟨"A", "e1"⟩], []]) =
      [Event.sendMissing [], Event.sendUpdated [], Event.sendMissing [], Event.sendUpdated [],
        Event.ret [], Event.closeUpdated, Event.closeMissing] := by
  refine ⟨Diff_normalRun _ _, returned_normalSends _ _, ?_, ?_, ?_,
    missingStream_Diff_normalRun _ _, updatedStream_Diff_normalRun _ _, by decide⟩
  · rw [returned_Diff_normalRun]; rfl
  · rw [missingStream_Diff_normalRun, List.length_map, length_withEarlier]
  · rw [updatedStream_Diff_normalRun, List.length_map, length_withEarlier]

theorem mem_missingOf (m : GoMap DesiredLRPResponse) (d : List CCDesiredAppFingerprint)
    (f : CCDesiredAppFingerprint) (hf : f ∈ d) (hg : mapGet m f.ProcessGuid = none) :
    f ∈ missingOf m d := by
  induction d generalizing m with
  | nil => simp at hf
  | cons a d ih =>
    rw [missingOf_cons]
    rcases List.mem_cons.1 hf with h | h
    · subst h; simp [hg]
    · apply List.mem_append_right
      apply ih _ h
      rw [mapGet_mapDelete]
      simp [hg]

theorem missingOf_append (m : GoMap DesiredLRPResponse) (a b : List CCDesiredAppFingerprint) :
    missingOf m (a ++ b) = missingOf m a ++ missingOf (remainingAfter m a) b := by
  induction a generalizing m with
  | nil => simp [missingOf, withEarlier_nil, remainingAfter_nil]
  | cons f a ih => simp [missingOf_cons, ih, remainingAfter_cons]

theorem flatten_missing_batches (m : GoMap DesiredLRPResponse)
    (bs : List (List CCDesiredAppFingerprint)) :
    ((withEarlier bs).map (fun p => missingOf (remainingAfter m p.1.flatten) p.2)).flatten =
      missingOf m bs.flatten := by
  induction bs generalizing m with
  | nil => simp [withEarlier_nil, missingOf]
  | cons b bs ih =>
    rw [List.flatten_cons, missingOf_append, ← ih (remainingAfter m b), withEarlier_cons]
    simp only [List.map_cons, List.flatten_cons, List.flatten_nil, remainingAfter_nil,
      List.map_map]
    congr 2
    apply List.map_congr_left
    intro p _
    simp [Function.comp, remainingAfter_append]

theorem countP_le_missingOf (m : GoMap DesiredLRPResponse) (d : List CCDesiredAppFingerprint)
    (g : String) :
    d.countP (fun f => decide (f.ProcessGuid = g)) ≤
      (missingOf m d).countP (fun f => decide (f.ProcessGuid = g)) +
        (if mapGet m g = none then 0 else 1) := by
  induction d generalizing m with
  | nil => simp
  | cons f d ih =>
    have ih2 := ih (mapDelete m f.ProcessGuid)
    rw [mapGet_mapDelete] at ih2
    rw [missingOf_cons, List.countP_append, List.countP_cons]
    by_cases hfg : f.ProcessGuid = g
    · subst hfg
      simp only [if_true] at ih2
      by_cases hm : mapGet m f.ProcessGuid = none
      · simp [hm]; omega
      · simp [hm]; omega
    · have hgf : ¬ g = f.ProcessGuid := fun e => hfg e.symm
      simp only [hgf, if_false] at ih2
      by_cases hm : mapGet m f.ProcessGuid = none
      · simp [hm, hfg]; omega
      · simp [hm, hfg]; omega

/-- C10. Single-pass matching: in a normal run, a fingerprint of a batch whose
guid was named by a fingerprint of an earlier batch is sent in that batch's
missing list, whatever its ETag and whether or not the snapshot holds the
guid; and for every guid, of all the fingerprints naming it at most one is
not sent as missing, that is, at most one is matched against the index. -/
theorem C10_single_pass (existing : List DesiredLRPResponse)
    (pre : List (List CCDesiredAppFingerprint)) (d : List CCDesiredAppFingerprint)
    (post : List (List CCDesiredAppFingerprint)) :
    (∀ f ∈ d, (∃ f0 ∈ pre.flatten, f0.ProcessGuid = f.ProcessGuid) →
      ∃ l, (missingStream (Diff existing (normalRun (pre ++ d :: post))))[pre.length]? = some l ∧
        f ∈ l) ∧
    (∀ g, (pre ++ d :: post).flatten.countP (fun f => decide (f.ProcessGuid = g)) ≤
      (missingStream (Diff existing (normalRun (pre ++ d :: post)))).flatten.countP
        (fun f => decide (f.ProcessGuid = g)) + 1) := by
  constructor
  · intro f hf ⟨f0, hf0, hg⟩
    refine ⟨_, missingStream_getElem existing pre d post, ?_⟩
    apply mem_missingOf _ _ _ hf
    rw [mapGet_eq_none_iff, mem_mapKeys_remainingAfter]
    intro h
    exact h.2 f0 hf0 hg
  · intro g
    rw [missingStream_Diff_normalRun, flatten_missing_batches]
    have h := countP_le_missingOf (organizeLRPsByProcessGuid existing) (pre ++ d :: post).flatten g
    split at h <;> omega

/-- Witness of C10: the snapshot holds `A`, the first batch matches it, and
the second batch names `A` again with the same ETag: it is sent as missing. -/
theorem C10_single_pass_witness :
    ∃ l, (missingStream (Diff [⟨"A", "e1"⟩]
        (normalRun ([[⟨"A", "e1"⟩]] ++ [⟨"A", "e1"⟩] :: []))))[1]? = some l ∧
      (⟨"A", "e1"⟩ : CCDesiredAppFingerprint) ∈ l :=
  (C10_single_pass [⟨"A", "e1"⟩] [[⟨"A", "e1"⟩]] [⟨"A", "e1"⟩] []).1 ⟨"A", "e1"⟩
    (List.mem_singleton.2 rfl) ⟨⟨"A", "e1"⟩, by decide, rfl⟩

/-! ## The recipe builder -/

theorem Build_ok (deps : Deps) (b : RecipeBuilder) (req : DesireAppRequestFromCC)
    (lrp : DesiredLRP) (h : Build deps b req = some (lrp, none)) :
    ∃ rootFSPath circusURL, lrp = buildLRP req rootFSPath circusURL := by
  unfold Build at h
  split at h
  · simp at h
  · split at h
    · simp at h
    · split at h
      · split at h
        · simp at h
        · simp only [Option.some.injEq, Prod.mk.injEq, and_true] at h
          exact ⟨_, _, h.symm⟩
      · split at h
        · simp at h
        · split at h
          · simp at h
          · simp only [Option.some.injEq, Prod.mk.injEq, and_true] at h
            exact ⟨_, _, h.symm⟩

theorem Build_ok_CPUWeight (deps : Deps) (b : RecipeBuilder) (req : DesireAppRequestFromCC)
    (lrp : DesiredLRP) (h : Build deps b req = some (lrp, none)) :
    lrp.CPUWeight = cpuWeight req.MemoryMB := by
  obtain ⟨r, c, rfl⟩ := Build_ok deps b req lrp h
  rfl

theorem cpuWeightRaw_eq (m : Int) (h1 : 256 ≤ m) :
    cpuWeightRaw m = 99 * (m - 256) / 7936 + 1 := by
  unfold cpuWeightRaw MinCpuProxy MaxCpuProxy
  rw [Int.tdiv_eq_ediv (by omega) (by omega)]
  norm_num

theorem cpuWeight_mid (m : Int) (h1 : 256 ≤ m) (h2 : m ≤ 8192) :
    (cpuWeight m : Int) = 99 * (m - 256) / 7936 + 1 := by
  unfold cpuWeight
  simp only [MaxCpuProxy, MinCpuProxy]
  rw [if_neg (by omega), if_neg (by omega)]
  unfold uint
  rw [cpuWeightRaw_eq m h1]
  have h3 : 0 ≤ 99 * (m - 256) / 7936 + 1 := by omega
  have h4 : 99 * (m - 256) / 7936 + 1 < 2 ^ 64 := by omega
  rw [Int.emod_eq_of_lt h3 h4]
  exact Int.toNat_of_nonneg h3

/-- C5. Recipe exclusivity: with both sources empty `Build` returns the zero
recipe and `ErrAppSourceMissing`, with both set it returns the zero recipe and
`ErrMultipleAppSources`, for every builder (its map of stacks included) and
every other field of the request: the two checks come before the stack is
looked up and before anything that can panic. -/
theorem C5_recipe_exclusivity (deps : Deps) (b : RecipeBuilder) (req : DesireAppRequestFromCC) :
    (req.DropletUri = "" → req.DockerImageUrl = "" →
      Build deps b req = some (zeroLRP, some BuildError.ErrAppSourceMissing)) ∧
    (req.DropletUri ≠ "" → req.DockerImageUrl ≠ "" →
      Build deps b req = some (zeroLRP, some BuildError.ErrMultipleAppSources)) := by
  constructor
  · intro h1 h2
    simp [Build, h1, h2]
  · intro h1 h2
    simp [Build, h1, h2]

/-- Witness of C5: the request of the tests with no source, and with both
sources, on a builder that has no bundle for any stack. -/
theorem C5_recipe_exclusivity_witness :
    Build testDeps { testBuilder with circuses := [] }
        { testRequest with DropletUri := "", DockerImageUrl := "" } =
      some (zeroLRP, some BuildError.ErrAppSourceMissing) ∧
    Build testDeps { testBuilder with circuses := [] }
        { testRequest with DockerImageUrl := "user/repo:tag" } =
      some (zeroLRP, some BuildError.ErrMultipleAppSources) :=
  ⟨(C5_recipe_exclusivity testDeps { testBuilder with circuses := [] }
      { testRequest with DropletUri := "", DockerImageUrl := "" }).1 rfl rfl,
   (C5_recipe_exclusivity testDeps { testBuilder with circuses := [] }
      { testRequest with DockerImageUrl := "user/repo:tag" }).2 (by decide) (by decide)⟩

/-- C6. Unmapped stack: for a request with a droplet and no docker image whose
stack has no entry in the map of the builder, `Build` returns the zero recipe
and `ErrNoCircusDefined`. -/
theorem C6_unmapped_stack (deps : Deps) (b : RecipeBuilder) (req : DesireAppRequestFromCC)
    (hd : req.DropletUri ≠ "") (hi : req.DockerImageUrl = "")
    (hs : mapGet b.circuses req.Stack = none) :
    Build deps b req = some (zeroLRP, some BuildError.ErrNoCircusDefined) := by
  simp [Build, hd, hi, hs]

/-- Witness of C6: the request of the tests with the stack `some-other-stack`. -/
theorem C6_unmapped_stack_witness :
    Build testDeps testBuilder { testRequest with Stack := "some-other-stack" } =
      some (zeroLRP, some BuildError.ErrNoCircusDefined) :=
  C6_unmapped_stack testDeps testBuilder { testRequest with Stack := "some-other-stack" }
    (by decide) (by decide) (by decide)

/-- C7. CPU weight boundaries and interpolation: the CPU weight of a built
recipe is 1 for a memory of at most 256, 100 for a memory of at least 8192,
`floor (99 * (m - 256) / (8192 - 256)) + 1` in between, and 50 at the
midpoint `(256 + 8192) / 2`. -/
theorem C7_cpu_weight_values (deps : Deps) (b : RecipeBuilder) (req : DesireAppRequestFromCC)
    (lrp : DesiredLRP) (h : Build deps b req = some (lrp, none)) :
    (req.MemoryMB ≤ 256 → lrp.CPUWeight = 1) ∧
    (8192 ≤ req.MemoryMB → lrp.CPUWeight = 100) ∧
    (256 < req.MemoryMB → req.MemoryMB < 8192 →
      (lrp.CPUWeight : Int) = 99 * (req.MemoryMB - 256) / (8192 - 256) + 1) ∧
    (req.MemoryMB = (256 + 8192) / 2 → lrp.CPUWeight = 50) := by
  rw [Build_ok_CPUWeight deps b req lrp h]
  refine ⟨?_, ?_, ?_, ?_⟩
  · intro hm
    by_cases h256 : req.MemoryMB = 256
    · rw [h256]; decide
    · unfold cpuWeight
      simp only [MaxCpuProxy, MinCpuProxy]
      rw [if_neg (by omega), if_pos (by omega)]
  · intro hm
    by_cases h8192 : req.MemoryMB = 8192
    · rw [h8192]; decide
    · unfold cpuWeight
      simp only [MaxCpuProxy, MinCpuProxy]
      rw [if_pos (by omega)]
  · intro h1 h2
    rw [cpuWeight_mid _ (by omega) (by omega)]
    norm_num
  · intro hm
    rw [hm]
    decide

/-- Witness of C7: the request of the tests with the midpoint memory is built
and has weight 50. -/
theorem C7_cpu_weight_values_witness :
    ∃ lrp, Build testDeps testBuilder { testRequest with MemoryMB := 4224 } = some (lrp, none) ∧
      lrp.CPUWeight = 50 :=
  ⟨_, rfl, (C7_cpu_weight_values testDeps testBuilder { testRequest with MemoryMB := 4224 } _
    rfl).2.2.2 (by decide)⟩

/-- C8. CPU weight range: the CPU weight of a built recipe is between 1 and
100 for every integer memory; when the conversion to `uint` is reached its
operand is between 1 and 100 too, so it is never negative and the conversion
leaves it unchanged. -/
theorem C8_cpu_weight_range (deps : Deps) (b : RecipeBuilder) (req : DesireAppRequestFromCC)
    (lrp : DesiredLRP) (h : Build deps b req = some (lrp, none)) :
    1 ≤ lrp.CPUWeight ∧ lrp.CPUWeight ≤ 100 ∧
    (¬ req.MemoryMB > MaxCpuProxy → ¬ req.MemoryMB < MinCpuProxy →
      1 ≤ cpuWeightRaw req.MemoryMB ∧ cpuWeightRaw req.MemoryMB ≤ 100 ∧
        (uint (cpuWeightRaw req.MemoryMB) : Int) = cpuWeightRaw req.MemoryMB) := by
  rw [Build_ok_CPUWeight deps b req lrp h]
  have hmid : MinCpuProxy ≤ req.MemoryMB → req.MemoryMB ≤ MaxCpuProxy →
      1 ≤ cpuWeightRaw req.MemoryMB ∧ cpuWeightRaw req.MemoryMB ≤ 100 ∧
        (uint (cpuWeightRaw req.MemoryMB) : Int) = cpuWeightRaw req.MemoryMB := by
    intro h1 h2
    simp only [MinCpuProxy, MaxCpuProxy] at h1 h2
    rw [cpuWeightRaw_eq _ h1]
    have h3 : 1 ≤ 99 * (req.MemoryMB - 256) / 7936 + 1 := by omega
    have h4 : 99 * (req.MemoryMB - 256) / 7936 + 1 ≤ 100 := by omega
    refine ⟨h3, h4, ?_⟩
    unfold uint
    rw [Int.emod_eq_of_lt (by omega) (by omega)]
    exact Int.toNat_of_nonneg (by omega)
  refine ⟨?_, ?_, fun h1 h2 => hmid (by omega) (by omega)⟩
  · unfold cpuWeight
    dsimp only
    split
    · omega
    · split
      · omega
      · have := hmid (by omega) (by omega)
        omega
  · unfold cpuWeight
    dsimp only
    split
    · omega
    · split
      · omega
      · have := hmid (by omega) (by omega)
        omega

/-- Witness of C8: a built recipe for a negative memory, and the operand of
the conversion at memory 300. -/
theorem C8_cpu_weight_range_witness :
    (∃ lrp, Build testDeps testBuilder { testRequest with MemoryMB := -5 } = some (lrp, none) ∧
      1 ≤ lrp.CPUWeight ∧ lrp.CPUWeight ≤ 100) ∧
    1 ≤ cpuWeightRaw 300 :=
  ⟨⟨_, rfl, (C8_cpu_weight_range testDeps testBuilder { testRequest with MemoryMB := -5 } _
      rfl).1,
    (C8_cpu_weight_range testDeps testBuilder { testRequest with MemoryMB := -5 } _ rfl).2.1⟩,
   ((C8_cpu_weight_range testDeps testBuilder { testRequest with MemoryMB := 300 } _ rfl).2.2
      (by decide) (by decide)).1⟩

theorem lastIndex_of_not_mem (s : List Char) (c : Char) (h : c ∉ s) : lastIndex s c = -1 := by
  induction s with
  | nil => rfl
  | cons x rest ih =>
    have h1 : c ∉ rest := fun hm => h (List.mem_cons_of_mem _ hm)
    have h2 : ¬ x = c := fun e => h (by rw [e]; exact List.mem_cons_self _ _)
    simp [lastIndex, ih h1, h2]

theorem lastIndex_append_cons (a b : List Char) (c : Char) (h : c ∉ b) :
    lastIndex (a ++ c :: b) c = a.length := by
  induction a with
  | nil => simp [lastIndex, lastIndex_of_not_mem b c h]
  | cons x a ih =>
    have e : lastIndex (x :: (a ++ c :: b)) c =
        if lastIndex (a ++ c :: b) c ≥ 0 then lastIndex (a ++ c :: b) c + 1
        else if x = c then 0 else -1 := rfl
    rw [List.cons_append, e, ih, if_pos (by omega)]
    simp

theorem parse_no_colon (s : String) (h : ':' ∉ s.data) :
    parseDockerRepositoryTag s = (s, "") := by
  simp [parseDockerRepositoryTag, lastIndex_of_not_mem s.data ':' h]

theorem parse_split (repo tag : String) (h : ':' ∉ tag.data) :
    parseDockerRepositoryTag (repo ++ ":" ++ tag) =
      if '/' ∈ tag.data then (repo ++ ":" ++ tag, "") else (repo, tag) := by
  have hd : (repo ++ ":" ++ tag).data = repo.data ++ ':' :: tag.data := by
    simp [String.data_append]
  unfold parseDockerRepositoryTag
  simp only [hd, lastIndex_append_cons _ _ _ h]
  rw [if_neg (by omega)]
  have h1 : List.drop (repo.data.length + 1) (repo.data ++ ':' :: tag.data) = tag.data := by
    rw [show repo.data ++ ':' :: tag.data = (repo.data ++ [':']) ++ tag.data by simp]
    exact List.drop_left' (by simp)
  have h2 : List.take repo.data.length (repo.data ++ ':' :: tag.data) = repo.data :=
    List.take_left' rfl
  simp only [Int.toNat_ofNat, h1, h2]
  by_cases hs : '/' ∈ tag.data <;> simp [hs]

/-- C9. Docker root filesystem path: a request with only a docker image is
built (when the static route exists), and its `RootFSPath` is the string of
the URL with scheme `docker`, path `/` followed by the repository and the tag
as fragment: the image is cut at its last `:` when no `/` follows it; with a
`/` after the last `:`, or no `:` at all, the whole image is the repository
and the fragment is empty. The three examples are evaluated with the
reference rendering of URLs. -/
theorem C9_docker_rootfs (deps : Deps) (b : RecipeBuilder) (req : DesireAppRequestFromCC)
    (route : String) (hr : deps.staticRoute = some route)
    (hi : req.DockerImageUrl ≠ "") (hd : req.DropletUri = "") :
    (∃ lrp, Build deps b req = some (lrp, none) ∧
      (∀ repo tag : String, req.DockerImageUrl = repo ++ ":" ++ tag → ':' ∉ tag.data →
        '/' ∉ tag.data →
        lrp.RootFSPath =
          deps.urlString { Scheme := "docker", Path := "/" ++ repo, Fragment := tag }) ∧
      (∀ repo tag : String, req.DockerImageUrl = repo ++ ":" ++ tag → ':' ∉ tag.data →
        '/' ∈ tag.data →
        lrp.RootFSPath =
          deps.urlString
            { Scheme := "docker", Path := "/" ++ req.DockerImageUrl, Fragment := "" }) ∧
      (':' ∉ req.DockerImageUrl.data →
        lrp.RootFSPath =
          deps.urlString
            { Scheme := "docker", Path := "/" ++ req.DockerImageUrl, Fragment := "" })) ∧
    (Build testDeps testBuilder
        { testRequest with DropletUri := "", DockerImageUrl := "user/repo:tag" }).map
      (fun r => (r.1.RootFSPath, r.2)) = some ("docker:///user/repo#tag", none) ∧
    (Build testDeps testBuilder
        { testRequest with DropletUri := "", DockerImageUrl := "user/repo" }).map
      (fun r => (r.1.RootFSPath, r.2)) = some ("docker:///user/repo", none) ∧
    (Build testDeps testBuilder
        { testRequest with DropletUri := "", DockerImageUrl := "user/repo:tag/with/slash" }).map
      (fun r => (r.1.RootFSPath, r.2)) = some ("docker:///user/repo:tag/with/slash", none) := by
  refine ⟨⟨buildLRP req (convertDockerURI deps req.DockerImageUrl)
      (deps.urlJoin b.fileServerURL [route, b.dockerCircusPath]), ?_, ?_, ?_, ?_⟩,
    by decide, by decide, by decide⟩
  · simp [Build, hi, hd, circusDownloadURL, hr]
  · intro repo tag hs hc hsl
    simp only [buildLRP, convertDockerURI, hs, parse_split repo tag hc, if_neg hsl, DockerScheme]
  · intro repo tag hs hc hsl
    simp only [buildLRP, convertDockerURI, hs, parse_split repo tag hc, if_pos hsl, DockerScheme]
  · intro hc
    simp only [buildLRP, convertDockerURI, parse_no_colon _ hc, DockerScheme]

/-- Witness of C9: the docker request of the tests. -/
theorem C9_docker_rootfs_witness :
    ∃ lrp, Build testDeps testBuilder
        { testRequest with DropletUri := "", DockerImageUrl := "user/repo:tag" } =
        some (lrp, none) ∧
      lrp.RootFSPath = "docker:///user/repo#tag" :=
  match (C9_docker_rootfs testDeps testBuilder
      { testRequest with DropletUri := "", DockerImageUrl := "user/repo:tag" } "/v1/static/"
      rfl (by decide) rfl).1 with
  | ⟨lrp, h1, h2, _, _⟩ => ⟨lrp, h1, (h2 "user/repo" "tag" rfl (by decide) (by decide)).trans rfl⟩

/-! ## The differ: the snapshot index, the stateless diff and the closes -/

theorem mapGet_append {β : Type} (a b : GoMap β) (k : String) :
    mapGet (a ++ b) k = match mapGet a k with
      | some v => some v
      | none => mapGet b k := by
  induction a with
  | nil => simp [mapGet]
  | cons kv rest ih =>
    obtain ⟨k1, v⟩ := kv
    by_cases h : k1 = k
    · simp [mapGet, h]
    · simp [mapGet, h, ih]

theorem mapGet_mapSet {β : Type} (m : GoMap β) (k : String) (v : β) (g : String) :
    mapGet (mapSet m k v) g = if k = g then some v else mapGet m g := by
  unfold mapSet
  rw [mapGet_append, mapGet_mapDelete]
  by_cases h : k = g
  · subst h; simp [mapGet]
  · have h2 : ¬ g = k := fun e => h e.symm
    simp only [h, h2, if_false]
    cases hg : mapGet m g with
    | none => simp [mapGet, h]
    | some w => rfl

theorem mapGet_organize_foldl (list : List DesiredLRPResponse) (acc : GoMap DesiredLRPResponse)
    (g : String) :
    mapGet (list.foldl (fun result lrp => mapSet result lrp.ProcessGuid lrp) acc) g =
      match lastWithGuid list g with
      | some lrp => some lrp
      | none => mapGet acc g := by
  induction list generalizing acc with
  | nil => simp [lastWithGuid]
  | cons l rest ih =>
    rw [List.foldl_cons, ih, mapGet_mapSet]
    have e : lastWithGuid (l :: rest) g =
        match lastWithGuid rest g with
        | some lrp => some lrp
        | none => if l.ProcessGuid = g then some l else none := by
      unfold lastWithGuid
      rw [List.reverse_cons, List.find?_append]
      cases List.find? (fun lrp => decide (lrp.ProcessGuid = g)) rest.reverse with
      | some x => rfl
      | none =>
        by_cases h : l.ProcessGuid = g <;> simp [List.find?, h]
    rw [e]
    cases lastWithGuid rest g with
    | some x => rfl
    | none => by_cases h : l.ProcessGuid = g <;> simp [h]

theorem mapGet_organize (existing : List DesiredLRPResponse) (g : String) :
    mapGet (organizeLRPsByProcessGuid existing) g = lastWithGuid existing g := by
  unfold organizeLRPsByProcessGuid
  rw [mapGet_organize_foldl]
  cases lastWithGuid existing g <;> simp [mapGet]

theorem lastWithGuid_eq_none_iff (existing : List DesiredLRPResponse) (g : String) :
    lastWithGuid existing g = none ↔ ∀ lrp ∈ existing, lrp.ProcessGuid ≠ g := by
  simp [lastWithGuid]

theorem mapGet_remainingAfter (m : GoMap DesiredLRPResponse)
    (seen : List CCDesiredAppFingerprint) (g : String) :
    mapGet (remainingAfter m seen) g =
      if ∀ f ∈ seen, f.ProcessGuid ≠ g then mapGet m g else none := by
  unfold remainingAfter
  rw [mapGet_filter m (fun k => decide (∀ f ∈ seen, f.ProcessGuid ≠ k)) g]
  simp

theorem staleOf_append (m : GoMap DesiredLRPResponse) (a b : List CCDesiredAppFingerprint) :
    staleOf m (a ++ b) = staleOf m a ++ staleOf (remainingAfter m a) b := by
  induction a generalizing m with
  | nil => simp [staleOf, withEarlier_nil, remainingAfter_nil]
  | cons f a ih => simp [staleOf_cons, ih, remainingAfter_cons]

theorem flatten_stale_batches (m : GoMap DesiredLRPResponse)
    (bs : List (List CCDesiredAppFingerprint)) :
    ((withEarlier bs).map (fun p => staleOf (remainingAfter m p.1.flatten) p.2)).flatten =
      staleOf m bs.flatten := by
  induction bs generalizing m with
  | nil => simp [withEarlier_nil, staleOf]
  | cons b bs ih =>
    rw [List.flatten_cons, staleOf_append, ← ih (remainingAfter m b), withEarlier_cons]
    simp only [List.map_cons, List.flatten_cons, List.flatten_nil, remainingAfter_nil,
      List.map_map]
    congr 2
    apply List.map_congr_left
    intro p _
    simp [Function.comp, remainingAfter_append]

theorem missingOf_eq_filter (m : GoMap DesiredLRPResponse) (d : List CCDesiredAppFingerprint)
    (hd : (d.map (fun f => f.ProcessGuid)).Nodup) :
    missingOf m d = d.filter (fun f => decide (mapGet m f.ProcessGuid = none)) := by
  induction d generalizing m with
  | nil => simp [missingOf, withEarlier_nil]
  | cons f d ih =>
    rw [List.map_cons, List.nodup_cons] at hd
    rw [missingOf_cons, ih _ hd.2, List.filter_cons]
    have hc : d.filter (fun x => decide (mapGet (mapDelete m f.ProcessGuid) x.ProcessGuid = none)) =
        d.filter (fun x => decide (mapGet m x.ProcessGuid = none)) := by
      apply List.filter_congr
      intro x hx
      rw [mapGet_mapDelete]
      have hne : ¬ x.ProcessGuid = f.ProcessGuid := fun e =>
        hd.1 (by rw [← e]; exact List.mem_map_of_mem _ hx)
      simp [hne]
    rw [hc]
    by_cases hg : mapGet m f.ProcessGuid = none <;> simp [hg]

theorem staleOf_eq_filter (m : GoMap DesiredLRPResponse) (d : List CCDesiredAppFingerprint)
    (hd : (d.map (fun f => f.ProcessGuid)).Nodup) :
    staleOf m d = d.filter (fun f =>
      match mapGet m f.ProcessGuid with
      | some lrp => decide (lrp.Annotation ≠ f.ETag)
      | none => false) := by
  induction d generalizing m with
  | nil => simp [staleOf, withEarlier_nil]
  | cons f d ih =>
    rw [List.map_cons, List.nodup_cons] at hd
    rw [staleOf_cons, ih _ hd.2, List.filter_cons]
    have hc : d.filter (fun x =>
          match mapGet (mapDelete m f.ProcessGuid) x.ProcessGuid with
          | some lrp => decide (lrp.Annotation ≠ x.ETag)
          | none => false) =
        d.filter (fun x =>
          match mapGet m x.ProcessGuid with
          | some lrp => decide (lrp.Annotation ≠ x.ETag)
          | none => false) := by
      apply List.filter_congr
      intro x hx
      rw [mapGet_mapDelete]
      have hne : ¬ x.ProcessGuid = f.ProcessGuid := fun e =>
        hd.1 (by rw [← e]; exact List.mem_map_of_mem _ hx)
      simp [hne]
    rw [hc]
    cases hg : mapGet m f.ProcessGuid with
    | none => simp
    | some lrp => by_cases he : lrp.Annotation = f.ETag <;> simp [he]

theorem deleted_spec (existing : List DesiredLRPResponse)
    (batches : List (List CCDesiredAppFingerprint)) :
    ∃ deleted, returned (Diff existing (normalRun batches)) = [deleted] ∧ deleted.Nodup ∧
      ∀ g, g ∈ deleted ↔ statelessDeleted existing batches.flatten g := by
  obtain ⟨h1, h2, h3⟩ := organize_spec existing
  refine ⟨_, returned_Diff_normalRun existing batches, ?_, ?_⟩
  · rw [deleteList_eq_keys _ h2]
    exact nodup_mapKeys_remainingAfter _ _ h1
  · intro g
    rw [deleteList_eq_keys _ h2, mem_mapKeys_remainingAfter, h3 g]
    rfl

theorem missing_flatten_of_namedOnce (existing : List DesiredLRPResponse)
    (batches : List (List CCDesiredAppFingerprint)) (h : namedOnce batches) :
    (missingStream (Diff existing (normalRun batches))).flatten =
      statelessMissing existing batches.flatten := by
  rw [missingStream_Diff_normalRun, flatten_missing_batches, missingOf_eq_filter _ _ h]
  unfold statelessMissing
  apply List.filter_congr
  intro f _
  rw [mapGet_organize]
  by_cases hn : lastWithGuid existing f.ProcessGuid = none
  · simp only [hn, decide_True]
    exact (decide_eq_true ((lastWithGuid_eq_none_iff existing f.ProcessGuid).1 hn)).symm
  · simp only [hn, decide_False]
    exact (decide_eq_false (fun hh => hn ((lastWithGuid_eq_none_iff existing f.ProcessGuid).2 hh))).symm

theorem stale_flatten_of_namedOnce (existing : List DesiredLRPResponse)
    (batches : List (List CCDesiredAppFingerprint)) (h : namedOnce batches) :
    (updatedStream (Diff existing (normalRun batches))).flatten =
      statelessStale existing batches.flatten := by
  rw [updatedStream_Diff_normalRun, flatten_stale_batches, staleOf_eq_filter _ _ h]
  unfold statelessStale
  simp only [mapGet_organize]

/-- C19. Agreement with the plain set difference: when no process guid is
named by more than one fingerprint of a normal run, the missing lists put
together are the fingerprints whose guid is not in the snapshot, the stale
lists put together are the fingerprints whose guid is in the snapshot with a
different annotation in the snapshot index, both in input order, and the
returned list holds each snapshot guid named by no fingerprint, once. -/
theorem C19_agrees_with_stateless (existing : List DesiredLRPResponse)
    (batches : List (List CCDesiredAppFingerprint)) (h : namedOnce batches) :
    (missingStream (Diff existing (normalRun batches))).flatten =
      statelessMissing existing batches.flatten ∧
    (updatedStream (Diff existing (normalRun batches))).flatten =
      statelessStale existing batches.flatten ∧
    ∃ deleted, returned (Diff existing (normalRun batches)) = [deleted] ∧ deleted.Nodup ∧
      ∀ g, g ∈ deleted ↔ statelessDeleted existing batches.flatten g :=
  ⟨missing_flatten_of_namedOnce existing batches h, stale_flatten_of_namedOnce existing batches h,
    deleted_spec existing batches⟩

/-- Witness of C19: a snapshot of three, two batches naming four guids. -/
theorem C19_agrees_with_stateless_witness :
    (missingStream (Diff [⟨"A", "e1"⟩, ⟨"B", "e1"⟩, ⟨"C", "e1"⟩]
      (normalRun [[⟨"A", "e1"⟩, ⟨"X", "eX"⟩], [⟨"B", "e2"⟩, ⟨"Y", "eY"⟩]]))).flatten =
      [⟨"X", "eX"⟩, ⟨"Y", "eY"⟩] ∧
    (updatedStream (Diff [⟨"A", "e1"⟩, ⟨"B", "e1"⟩, ⟨"C", "e1"⟩]
      (normalRun [[⟨"A", "e1"⟩, ⟨"X", "eX"⟩], [⟨"B", "e2"⟩, ⟨"Y", "eY"⟩]]))).flatten =
      [⟨"B", "e2"⟩] :=
  ⟨(C19_agrees_with_stateless [⟨"A", "e1"⟩, ⟨"B", "e1"⟩, ⟨"C", "e1"⟩]
      [[⟨"A", "e1"⟩, ⟨"X", "eX"⟩], [⟨"B", "e2"⟩, ⟨"Y", "eY"⟩]] (by decide)).1.trans (by decide),
   (C19_agrees_with_stateless [⟨"A", "e1"⟩, ⟨"B", "e1"⟩, ⟨"C", "e1"⟩]
      [[⟨"A", "e1"⟩, ⟨"X", "eX"⟩], [⟨"B", "e2"⟩, ⟨"Y", "eY"⟩]] (by decide)).2.1.trans
        (by decide)⟩

theorem flatten_eq_nil_forall {α : Type} (L : List (List α)) (h : L.flatten = []) :
    ∀ l ∈ L, l = [] := by
  induction L with
  | nil => simp
  | cons a L ih =>
    rw [List.flatten_cons, List.append_eq_nil] at h
    intro l hl
    rcases List.mem_cons.1 hl with e | e
    · rw [e]; exact h.1
    · exact ih h.2 l e

/-- C11, the counterexamples. The claim as stated fails in three ways, each
with every fingerprint naming a snapshot guid with an equal ETag: a snapshot
entry that no fingerprint names is returned as deleted; a guid named a second
time is sent as missing; and a snapshot list that holds a guid twice is
indexed by its last element, so a fingerprint agreeing with the first one is
sent as stale. -/
theorem C11_noop_convergence_counterexample :
    (consistentWith [⟨"A", "e1"⟩, ⟨"B", "e1"⟩] [[⟨"A", "e1"⟩]] ∧
      returned (Diff [⟨"A", "e1"⟩, ⟨"B", "e1"⟩] (normalRun [[⟨"A", "e1"⟩]])) = [["B"]]) ∧
    (consistentWith [⟨"A", "e1"⟩] [[⟨"A", "e1"⟩], [⟨"A", "e1"⟩]] ∧
      missingStream (Diff [⟨"A", "e1"⟩] (normalRun [[⟨"A", "e1"⟩], [⟨"A", "e1"⟩]])) =
        [[], [⟨"A", "e1"⟩]]) ∧
    (consistentWith [⟨"A", "e1"⟩, ⟨"A", "e2"⟩] [[⟨"A", "e1"⟩]] ∧
      updatedStream (Diff [⟨"A", "e1"⟩, ⟨"A", "e2"⟩] (normalRun [[⟨"A", "e1"⟩]])) =
        [[⟨"A", "e1"⟩]]) := by
  decide

/-- C11, amended. No-op convergence: in a normal run in which no guid is named
by more than one fingerprint and every fingerprint names a snapshot guid
whose last element in the snapshot list has an annotation equal to the ETag,
every list sent on the missing channel and on the stale channel is empty, and
the list returned holds exactly the snapshot guids that no fingerprint names:
it is empty when every snapshot guid is named. -/
theorem C11_noop_convergence_amended (existing : List DesiredLRPResponse)
    (batches : List (List CCDesiredAppFingerprint))
    (h1 : consistentWithLast existing batches) (h2 : namedOnce batches) :
    (∀ l ∈ missingStream (Diff existing (normalRun batches)), l = []) ∧
    (∀ l ∈ updatedStream (Diff existing (normalRun batches)), l = []) ∧
    ∃ deleted, returned (Diff existing (normalRun batches)) = [deleted] ∧
      (∀ g, g ∈ deleted ↔ statelessDeleted existing batches.flatten g) ∧
      ((∀ lrp ∈ existing, ∃ f ∈ batches.flatten, f.ProcessGuid = lrp.ProcessGuid) →
        deleted = []) := by
  have hall : ∀ f ∈ batches.flatten,
      ∃ lrp, lastWithGuid existing f.ProcessGuid = some lrp ∧ lrp.Annotation = f.ETag := by
    intro f hf
    obtain ⟨b, hb, hfb⟩ := List.mem_flatten.1 hf
    have h := h1 b hb f hfb
    cases hl : lastWithGuid existing f.ProcessGuid with
    | none => rw [hl] at h; cases h
    | some lrp =>
      rw [hl] at h
      exact ⟨lrp, rfl, Option.some.inj h⟩
  refine ⟨?_, ?_, ?_⟩
  · apply flatten_eq_nil_forall
    rw [missing_flatten_of_namedOnce existing batches h2]
    unfold statelessMissing
    rw [List.filter_eq_nil_iff]
    intro f hf
    obtain ⟨lrp, hl, _⟩ := hall f hf
    simp only [decide_eq_true_eq]
    intro hn
    rw [(lastWithGuid_eq_none_iff existing f.ProcessGuid).2 hn] at hl
    cases hl
  · apply flatten_eq_nil_forall
    rw [stale_flatten_of_namedOnce existing batches h2]
    unfold statelessStale
    rw [List.filter_eq_nil_iff]
    intro f hf
    obtain ⟨lrp, hl, he⟩ := hall f hf
    simp [hl, he]
  · obtain ⟨deleted, hr, _, hm⟩ := deleted_spec existing batches
    refine ⟨deleted, hr, hm, ?_⟩
    intro hnamed
    apply List.eq_nil_iff_forall_not_mem.2
    intro g hg
    obtain ⟨⟨lrp, hlrp, hgl⟩, hno⟩ := (hm g).1 hg
    obtain ⟨f, hf, hfg⟩ := hnamed lrp hlrp
    exact hno f hf (hfg.trans hgl)

/-- Witness of C11, amended: the snapshot holds `A` twice and `B`, the batches
name `A` with the ETag of its last element and `B`. -/
theorem C11_noop_convergence_amended_witness :
    (∀ l ∈ missingStream (Diff [⟨"A", "e1"⟩, ⟨"A", "e2"⟩, ⟨"B", "e1"⟩]
      (normalRun [[⟨"A", "e2"⟩], [⟨"B", "e1"⟩]])), l = []) ∧
    (∀ l ∈ updatedStream (Diff [⟨"A", "e1"⟩, ⟨"A", "e2"⟩, ⟨"B", "e1"⟩]
      (normalRun [[⟨"A", "e2"⟩], [⟨"B", "e1"⟩]])), l = []) :=
  have h := C11_noop_convergence_amended [⟨"A", "e1"⟩, ⟨"A", "e2"⟩, ⟨"B", "e1"⟩]
    [[⟨"A", "e2"⟩], [⟨"B", "e1"⟩]] (by decide)
    (by decide)
  ⟨h.1, h.2.1⟩

theorem lastWithGuid_append_cons (a : List DesiredLRPResponse) (l : DesiredLRPResponse)
    (b : List DesiredLRPResponse) (hb : ∀ x ∈ b, x.ProcessGuid ≠ l.ProcessGuid) :
    lastWithGuid (a ++ l :: b) l.ProcessGuid = some l := by
  unfold lastWithGuid
  rw [List.reverse_append, List.reverse_cons, List.append_assoc, List.find?_append]
  have hn : List.find? (fun lrp => decide (lrp.ProcessGuid = l.ProcessGuid)) b.reverse = none := by
    rw [List.find?_eq_none]
    intro x hx
    simpa using hb x (List.mem_reverse.1 hx)
  rw [hn]
  simp [List.find?]

theorem mem_staleOf (m : GoMap DesiredLRPResponse) (d : List CCDesiredAppFingerprint)
    (x : CCDesiredAppFingerprint) (h : x ∈ staleOf m d) :
    x ∈ d ∧ mapGet m x.ProcessGuid ≠ none := by
  induction d generalizing m with
  | nil => simp [staleOf, withEarlier_nil] at h
  | cons f d ih =>
    rw [staleOf_cons] at h
    rcases List.mem_append.1 h with h1 | h1
    · cases hg : mapGet m f.ProcessGuid with
      | none => rw [hg] at h1; simp at h1
      | some lrp =>
        rw [hg] at h1
        by_cases he : lrp.Annotation = f.ETag
        · simp [he] at h1
        · simp only [he, if_false, List.mem_singleton] at h1
          subst h1
          exact ⟨List.mem_cons_self _ _, by rw [hg]; simp⟩
    · obtain ⟨h2, h3⟩ := ih _ h1
      refine ⟨List.mem_cons_of_mem _ h2, ?_⟩
      rw [mapGet_mapDelete] at h3
      by_cases hx : x.ProcessGuid = f.ProcessGuid
      · simp [hx] at h3
      · simpa [hx] using h3

theorem mem_staleOf_first (m : GoMap DesiredLRPResponse) (d1 : List CCDesiredAppFingerprint)
    (f : CCDesiredAppFingerprint) (d2 : List CCDesiredAppFingerprint)
    (hfirst : ∀ x ∈ d1, x.ProcessGuid ≠ f.ProcessGuid) :
    f ∈ staleOf m (d1 ++ f :: d2) ↔
      ∃ lrp, mapGet m f.ProcessGuid = some lrp ∧ lrp.Annotation ≠ f.ETag := by
  have hm : mapGet (remainingAfter m d1) f.ProcessGuid = mapGet m f.ProcessGuid := by
    rw [mapGet_remainingAfter, if_pos hfirst]
  rw [staleOf_append, staleOf_cons, hm]
  constructor
  · intro h
    rcases List.mem_append.1 h with h1 | h1
    · exact absurd rfl (hfirst f (mem_staleOf _ _ _ h1).1)
    · rcases List.mem_append.1 h1 with h2 | h2
      · cases hg : mapGet m f.ProcessGuid with
        | none => rw [hg] at h2; simp at h2
        | some lrp =>
          rw [hg] at h2
          by_cases he : lrp.Annotation = f.ETag
          · simp [he] at h2
          · exact ⟨lrp, rfl, he⟩
      · have h3 := (mem_staleOf _ _ _ h2).2
        rw [mapGet_mapDelete] at h3
        simp at h3
  · rintro ⟨lrp, hg, he⟩
    apply List.mem_append_right
    apply List.mem_append_left
    rw [hg]
    simp [he]

/-- C12. The snapshot index keeps the last duplicate: the index built by
`organizeLRPsByProcessGuid` has no key twice, its keys are the process guids
of the list, and the entry for a guid is the last element of the list with
that guid. Hence in a normal run, a fingerprint that is the first of the run
to name its guid is sent as stale exactly when its ETag differs from the
annotation of that last element. -/
theorem C12_index_keeps_last (existing : List DesiredLRPResponse) :
    (mapKeys (organizeLRPsByProcessGuid existing)).Nodup ∧
    (∀ g, g ∈ mapKeys (organizeLRPsByProcessGuid existing) ↔
      ∃ lrp ∈ existing, lrp.ProcessGuid = g) ∧
    (∀ g, (∀ lrp ∈ existing, lrp.ProcessGuid ≠ g) →
      mapGet (organizeLRPsByProcessGuid existing) g = none) ∧
    (∀ a l b, existing = a ++ l :: b → (∀ x ∈ b, x.ProcessGuid ≠ l.ProcessGuid) →
      mapGet (organizeLRPsByProcessGuid existing) l.ProcessGuid = some l ∧
      ∀ pre d1 f d2 post, f.ProcessGuid = l.ProcessGuid →
        (∀ x ∈ pre.flatten ++ d1, x.ProcessGuid ≠ f.ProcessGuid) →
        ((∃ stale, (updatedStream (Diff existing
            (normalRun (pre ++ (d1 ++ f :: d2) :: post))))[pre.length]? = some stale ∧
            f ∈ stale) ↔ l.Annotation ≠ f.ETag)) := by
  obtain ⟨h1, _, h3⟩ := organize_spec existing
  refine ⟨h1, h3, ?_, ?_⟩
  · intro g hg
    rw [mapGet_organize]
    exact (lastWithGuid_eq_none_iff existing g).2 hg
  · intro a l b he hb
    have hl : mapGet (organizeLRPsByProcessGuid existing) l.ProcessGuid = some l := by
      rw [mapGet_organize, he]
      exact lastWithGuid_append_cons a l b hb
    refine ⟨hl, ?_⟩
    intro pre d1 f d2 post hfl hnot
    rw [updatedStream_getElem]
    have hpre : ∀ x ∈ pre.flatten, x.ProcessGuid ≠ f.ProcessGuid :=
      fun x hx => hnot x (List.mem_append_left _ hx)
    have hd1 : ∀ x ∈ d1, x.ProcessGuid ≠ f.ProcessGuid :=
      fun x hx => hnot x (List.mem_append_right _ hx)
    have hcur : mapGet (remainingAfter (organizeLRPsByProcessGuid existing) pre.flatten)
        f.ProcessGuid = some l := by
      rw [mapGet_remainingAfter, if_pos hpre, hfl]
      exact hl
    constructor
    · rintro ⟨stale, hs, hf⟩
      have hs2 := Option.some.inj hs
      rw [← hs2, mem_staleOf_first _ _ _ _ hd1, hcur] at hf
      obtain ⟨lrp, e1, e2⟩ := hf
      rw [← Option.some.inj e1] at e2
      exact e2
    · intro hne
      refine ⟨_, rfl, ?_⟩
      rw [mem_staleOf_first _ _ _ _ hd1, hcur]
      exact ⟨l, rfl, hne⟩

/-- Witness of C12: the snapshot holds `A` twice; a fingerprint with the ETag
of the first element is sent as stale. -/
theorem C12_index_keeps_last_witness :
    mapGet (organizeLRPsByProcessGuid [⟨"A", "e1"⟩, ⟨"A", "e2"⟩, ⟨"B", "e1"⟩]) "A" =
      some ⟨"A", "e2"⟩ ∧
    ∃ stale, (updatedStream (Diff [⟨"A", "e1"⟩, ⟨"A", "e2"⟩, ⟨"B", "e1"⟩]
        (normalRun ([[⟨"X", "eX"⟩]] ++ ([⟨"B", "e1"⟩] ++ ⟨"A", "e1"⟩ :: []) :: []))))[1]? =
        some stale ∧ (⟨"A", "e1"⟩ : CCDesiredAppFingerprint) ∈ stale :=
  have h := (C12_index_keeps_last [⟨"A", "e1"⟩, ⟨"A", "e2"⟩, ⟨"B", "e1"⟩]).2.2.2
    [⟨"A", "e1"⟩] ⟨"A", "e2"⟩ [⟨"B", "e1"⟩] rfl (by decide)
  ⟨h.1, (h.2 [[⟨"X", "eX"⟩]] [⟨"B", "e1"⟩] ⟨"A", "e1"⟩ [] [] rfl (by decide)).2 (by decide)⟩

theorem diffLoop_no_close (m : GoMap DesiredLRPResponse) (script : List Input) :
    ∀ e ∈ diffLoop m script, isClose e = false := by
  induction script generalizing m with
  | nil => simp [diffLoop, isClose]
  | cons i rest ih =>
    cases i with
    | cancel => simp [diffLoop, isClose]
    | batch d s1 s2 =>
      cases s1 with
      | cancelled => simp [diffLoop, isClose]
      | sent =>
        cases s2 with
        | cancelled => simp [diffLoop, isClose]
        | sent =>
          intro e he
          simp only [diffLoop, List.mem_cons] at he
          rcases he with he | he | he
          · rw [he]; rfl
          · rw [he]; rfl
          · exact ih _ e he

/-- C18. Stream closure: every run of `Diff`, whatever the script (input
closed, or cancel taken at any select, before or after any number of
batches), ends with the close of the stale channel and then the close of the
missing channel, and nothing before these two events is a close, so each
channel is closed exactly once and nothing is sent on a closed channel. -/
theorem C18_stream_closure (existing : List DesiredLRPResponse) (script : List Input) :
    (∃ body, Diff existing script = body ++ [Event.closeUpdated, Event.closeMissing] ∧
      ∀ e ∈ body, isClose e = false) ∧
    (Diff existing script).count Event.closeUpdated = 1 ∧
    (Diff existing script).count Event.closeMissing = 1 := by
  have hb := diffLoop_no_close (organizeLRPsByProcessGuid existing) script
  refine ⟨⟨_, rfl, hb⟩, ?_, ?_⟩
  · unfold Diff
    rw [List.count_append, List.count_eq_zero.2 (fun hm => by simpa [isClose] using hb _ hm)]
    decide
  · unfold Diff
    rw [List.count_append, List.count_eq_zero.2 (fun hm => by simpa [isClose] using hb _ hm)]
    decide

/-! ## The recipe builder: the shape of the recipe -/

theorem Build_ok_cases (deps : Deps) (b : RecipeBuilder) (req : DesireAppRequestFromCC)
    (lrp : DesiredLRP) (h : Build deps b req = some (lrp, none)) :
    (req.DockerImageUrl ≠ "" ∧ req.DropletUri = "" ∧
      ∃ route, deps.staticRoute = some route ∧
        lrp = buildLRP req (convertDockerURI deps req.DockerImageUrl)
          (deps.urlJoin b.fileServerURL [route, b.dockerCircusPath])) ∨
    (req.DockerImageUrl = "" ∧ req.DropletUri ≠ "" ∧
      ∃ route circusPath, deps.staticRoute = some route ∧
        mapGet b.circuses req.Stack = some circusPath ∧
        lrp = buildLRP req "" (deps.urlJoin b.fileServerURL [route, circusPath])) := by
  unfold Build at h
  by_cases hd : req.DropletUri = "" <;> by_cases hi : req.DockerImageUrl = ""
  · simp [hd, hi] at h
  · left
    cases hr : deps.staticRoute with
    | none => simp [hd, hi, circusDownloadURL, hr] at h
    | some route =>
      simp [hd, hi, circusDownloadURL, hr] at h
      exact ⟨hi, hd, route, rfl, h.symm⟩
  · right
    cases hs : mapGet b.circuses req.Stack with
    | none => simp [hd, hi, hs] at h
    | some circusPath =>
      cases hr : deps.staticRoute with
      | none => simp [hd, hi, hs, circusDownloadURL, hr] at h
      | some route =>
        simp [hd, hi, hs, circusDownloadURL, hr] at h
        exact ⟨hi, hd, route, circusPath, rfl, rfl, h.symm⟩
  · simp [hd, hi] at h

theorem Build_err_zero (deps : Deps) (b : RecipeBuilder) (req : DesireAppRequestFromCC)
    (lrp : DesiredLRP) (e : BuildError) (h : Build deps b req = some (lrp, some e)) :
    lrp = zeroLRP := by
  unfold Build at h
  split at h
  · simp only [Option.some.injEq, Prod.mk.injEq] at h
    exact h.1.symm
  · split at h
    · simp only [Option.some.injEq, Prod.mk.injEq] at h
      exact h.1.symm
    · split at h
      · split at h
        · simp at h
        · simp at h
      · split at h
        · simp only [Option.some.injEq, Prod.mk.injEq] at h
          exact h.1.symm
        · split at h
          · simp at h
          · simp at h

/-- C13. Setup shape: in every built recipe `Setup` is a serial action. For a
docker image its only child is the download of
`Join(fileServerURL, static route, dockerCircusPath)` to `/tmp/circus` with an
empty cache key. For a droplet it has two children, first the download of
`Join(fileServerURL, static route, circuses[Stack])` to `/tmp/circus` with an
empty cache key, then the download of the droplet to `.` with the cache key
`droplets-` followed by the process guid. -/
theorem C13_setup_shape (deps : Deps) (b : RecipeBuilder) (req : DesireAppRequestFromCC)
    (lrp : DesiredLRP) (h : Build deps b req = some (lrp, none)) :
    (req.DockerImageUrl ≠ "" ∧ req.DropletUri = "" ∧
      ∃ route, deps.staticRoute = some route ∧
        lrp.Setup = some (ExecutorAction.SerialAction
          [ExecutorAction.DownloadAction
            (deps.urlJoin b.fileServerURL [route, b.dockerCircusPath]) "/tmp/circus" ""])) ∨
    (req.DockerImageUrl = "" ∧ req.DropletUri ≠ "" ∧
      ∃ route circusPath, deps.staticRoute = some route ∧
        mapGet b.circuses req.Stack = some circusPath ∧
        lrp.Setup = some (ExecutorAction.SerialAction
          [ExecutorAction.DownloadAction
            (deps.urlJoin b.fileServerURL [route, circusPath]) "/tmp/circus" "",
           ExecutorAction.DownloadAction req.DropletUri "."
            ("droplets-" ++ req.ProcessGuid)])) := by
  rcases Build_ok_cases deps b req lrp h with ⟨hi, hd, route, hr, hl⟩ |
    ⟨hi, hd, route, circusPath, hr, hs, hl⟩
  · left
    refine ⟨hi, hd, route, hr, ?_⟩
    rw [hl]
    simp [buildLRP, hd]
  · right
    refine ⟨hi, hd, route, circusPath, hr, hs, ?_⟩
    rw [hl]
    simp [buildLRP, hd]

/-- Witness of C13: the request of the tests and its docker variant. -/
theorem C13_setup_shape_witness :
    (∃ lrp, Build testDeps testBuilder testRequest = some (lrp, none) ∧
      lrp.Setup = some (ExecutorAction.SerialAction
        [ExecutorAction.DownloadAction "http://file-server.com/v1/static/some-circus.tgz"
          "/tmp/circus" "",
         ExecutorAction.DownloadAction "http://the-droplet.uri.com" "."
          "droplets-the-app-guid-the-app-version"])) ∧
    (∃ lrp, Build testDeps testBuilder
        { testRequest with DropletUri := "", DockerImageUrl := "user/repo:tag" } =
        some (lrp, none) ∧
      lrp.Setup = some (ExecutorAction.SerialAction
        [ExecutorAction.DownloadAction
          "http://file-server.com/v1/static/the/docker/circus/path.tgz" "/tmp/circus" ""])) :=
  ⟨⟨_, rfl, by
      rcases C13_setup_shape testDeps testBuilder testRequest _ rfl with h | h
      · exact absurd h.2.1 (by decide)
      · obtain ⟨_, _, route, circusPath, hr, hs, hl⟩ := h
        cases hr
        cases hs
        exact hl⟩,
   ⟨_, rfl, by
      rcases C13_setup_shape testDeps testBuilder
        { testRequest with DropletUri := "", DockerImageUrl := "user/repo:tag" } _ rfl with h | h
      · obtain ⟨_, _, route, hr, hl⟩ := h
        cases hr
        exact hl
      · exact absurd h.1 (by decide)⟩⟩

/-- C14. Default environment injection: in every built recipe the action is a
run whose environment is the environment of the request, entry by entry in
its order, followed by `PORT=8080`, `VCAP_APP_PORT=8080` and
`VCAP_APP_HOST=0.0.0.0`; its length is that of the request's environment plus
three, whatever names the request defines. -/
theorem C14_default_environment (deps : Deps) (b : RecipeBuilder)
    (req : DesireAppRequestFromCC) (lrp : DesiredLRP)
    (h : Build deps b req = some (lrp, none)) :
    ∃ path args env nofile, lrp.Action = some (ExecutorAction.RunAction path args env nofile) ∧
      env = req.Environment ++
        [{ Name := "PORT", Value := "8080" }, { Name := "VCAP_APP_PORT", Value := "8080" },
         { Name := "VCAP_APP_HOST", Value := "0.0.0.0" }] ∧
      env.length = req.Environment.length + 3 := by
  obtain ⟨r, c, rfl⟩ := Build_ok deps b req lrp h
  refine ⟨_, _, _, _, rfl, ?_, ?_⟩
  · simp [createLrpEnv, BBSEnvironment]
  · simp [createLrpEnv, BBSEnvironment]

/-- Witness of C14: a request that defines `PORT` itself, twice. -/
theorem C14_default_environment_witness :
    ∃ path args env nofile,
      (Build testDeps testBuilder
        { testRequest with Environment := [⟨"PORT", "1"⟩, ⟨"foo", "bar"⟩, ⟨"PORT", "2"⟩] }).map
        (fun r => r.1.Action) = some (some (ExecutorAction.RunAction path args env nofile)) ∧
      env = [⟨"PORT", "1"⟩, ⟨"foo", "bar"⟩, ⟨"PORT", "2"⟩, ⟨"PORT", "8080"⟩,
        ⟨"VCAP_APP_PORT", "8080"⟩, ⟨"VCAP_APP_HOST", "0.0.0.0"⟩] :=
  match C14_default_environment testDeps testBuilder
      { testRequest with Environment := [⟨"PORT", "1"⟩, ⟨"foo", "bar"⟩, ⟨"PORT", "2"⟩] }
      _ rfl with
  | ⟨path, args, env, nofile, h1, h2, _⟩ => ⟨path, args, env, nofile, congrArg some h1, h2⟩

/-- C15. File-descriptor limit: in every built recipe the action is a run
whose `Nofile` is unset when `FileDescriptors` is 0 and is set to
`FileDescriptors` otherwise. -/
theorem C15_nofile_limit (deps : Deps) (b : RecipeBuilder) (req : DesireAppRequestFromCC)
    (lrp : DesiredLRP) (h : Build deps b req = some (lrp, none)) :
    ∃ path args env nofile, lrp.Action = some (ExecutorAction.RunAction path args env nofile) ∧
      (nofile.isSome = true ↔ req.FileDescriptors ≠ 0) ∧
      (∀ n, nofile = some n → n = req.FileDescriptors) ∧
      (req.FileDescriptors = 0 → nofile = none) := by
  obtain ⟨r, c, rfl⟩ := Build_ok deps b req lrp h
  refine ⟨_, _, _, _, rfl, ?_, ?_, ?_⟩
  · by_cases hf : req.FileDescriptors = 0 <;> simp [hf]
  · intro n
    by_cases hf : req.FileDescriptors = 0
    · simp [hf]
    · simp only [ne_eq, hf, not_false_eq_true, if_true, Option.some.injEq]
      exact fun e => e.symm
  · intro hf
    simp [hf]

/-- Witness of C15: the request of the tests, with the limit 32. -/
theorem C15_nofile_limit_witness :
    Build testDeps testBuilder testRequest =
      some (buildLRP testRequest "" "http://file-server.com/v1/static/some-circus.tgz", none) ∧
    ∃ path args env nofile,
      (buildLRP testRequest "" "http://file-server.com/v1/static/some-circus.tgz").Action =
        some (ExecutorAction.RunAction path args env nofile) ∧
      (nofile.isSome = true ↔ testRequest.FileDescriptors ≠ 0) ∧
      (∀ n, nofile = some n → n = testRequest.FileDescriptors) ∧
      (testRequest.FileDescriptors = 0 → nofile = none) :=
  ⟨rfl, C15_nofile_limit testDeps testBuilder testRequest _ rfl⟩

/-- C16. Launcher and probe commands: in every built recipe the action is the
run of `/tmp/circus/soldier` with exactly the three arguments `/app`, the
start command and the execution metadata, whatever these two strings are, and
the monitor is the run of `/tmp/circus/spy` with the one argument
`-addr=:8080`, an empty environment and no limit. -/
theorem C16_launcher_and_probe (deps : Deps) (b : RecipeBuilder)
    (req : DesireAppRequestFromCC) (lrp : DesiredLRP)
    (h : Build deps b req = some (lrp, none)) :
    (∃ env nofile, lrp.Action = some (ExecutorAction.RunAction "/tmp/circus/soldier"
      ["/app", req.StartCommand, req.ExecutionMetadata] env nofile)) ∧
    lrp.Monitor = some (ExecutorAction.RunAction "/tmp/circus/spy" ["-addr=:8080"] [] none) := by
  obtain ⟨r, c, rfl⟩ := Build_ok deps b req lrp h
  exact ⟨⟨_, _, rfl⟩, rfl⟩

/-- Witness of C16: a request with an empty start command and metadata with
spaces. -/
theorem C16_launcher_and_probe_witness :
    Build testDeps testBuilder
        { testRequest with StartCommand := "", ExecutionMetadata := "a b  c" } =
      some (buildLRP { testRequest with StartCommand := "", ExecutionMetadata := "a b  c" } ""
        "http://file-server.com/v1/static/some-circus.tgz", none) ∧
    (∃ env nofile,
      (buildLRP { testRequest with StartCommand := "", ExecutionMetadata := "a b  c" } ""
        "http://file-server.com/v1/static/some-circus.tgz").Action =
      some (ExecutorAction.RunAction "/tmp/circus/soldier" ["/app", "", "a b  c"] env nofile)) :=
  ⟨rfl, (C16_launcher_and_probe testDeps testBuilder
    { testRequest with StartCommand := "", ExecutionMetadata := "a b  c" } _ rfl).1⟩

/-- C17. Copy-through and fixed fields: in every built recipe the process
guid, the routes, the instances, the memory, the disk, the stack and the log
guid are those of the request, the domain is `cf-apps`, the log source name is
`App` and the ports are the one mapping of container port 8080. -/
theorem C17_copy_through (deps : Deps) (b : RecipeBuilder) (req : DesireAppRequestFromCC)
    (lrp : DesiredLRP) (h : Build deps b req = some (lrp, none)) :
    lrp.ProcessGuid = req.ProcessGuid ∧ lrp.Routes = req.Routes ∧
    lrp.Instances = req.NumInstances ∧ lrp.MemoryMB = req.MemoryMB ∧
    lrp.DiskMB = req.DiskMB ∧ lrp.Stack = req.Stack ∧ lrp.Log.Guid = req.LogGuid ∧
    lrp.Domain = "cf-apps" ∧ lrp.Log.SourceName = "App" ∧
    lrp.Ports = [{ ContainerPort := 8080 }] := by
  obtain ⟨r, c, rfl⟩ := Build_ok deps b req lrp h
  exact ⟨rfl, rfl, rfl, rfl, rfl, rfl, rfl, rfl, rfl, rfl⟩

/-- Witness of C17: the request of the tests. -/
theorem C17_copy_through_witness :
    ∃ lrp, Build testDeps testBuilder testRequest = some (lrp, none) ∧
      lrp.ProcessGuid = "the-app-guid-the-app-version" ∧ lrp.Instances = 23 ∧
      lrp.Routes = ["route1", "route2"] ∧ lrp.Domain = "cf-apps" :=
  ⟨_, rfl,
    (C17_copy_through testDeps testBuilder testRequest _ rfl).1,
    (C17_copy_through testDeps testBuilder testRequest _ rfl).2.2.1,
    (C17_copy_through testDeps testBuilder testRequest _ rfl).2.1,
    (C17_copy_through testDeps testBuilder testRequest _ rfl).2.2.2.2.2.2.2.1⟩

/-- C20. Build succeeds exactly when validation passes: with the static route
of the file server in place, `Build` always returns, and it returns a recipe
and no error exactly when one of the two sources is set and the other empty
and, for a droplet, the stack has an entry in the map of the builder; a docker
image is built also when its stack has no entry; and whenever an error is
returned the recipe is the zero value. -/
theorem C20_build_succeeds_iff (deps : Deps) (b : RecipeBuilder)
    (req : DesireAppRequestFromCC) (route : String) (hr : deps.staticRoute = some route) :
    ((∃ lrp, Build deps b req = some (lrp, none)) ↔
      ((req.DropletUri ≠ "" ∧ req.DockerImageUrl = "" ∧
          ∃ circusPath, mapGet b.circuses req.Stack = some circusPath) ∨
        (req.DropletUri = "" ∧ req.DockerImageUrl ≠ ""))) ∧
    (req.DropletUri = "" → req.DockerImageUrl ≠ "" → mapGet b.circuses req.Stack = none →
      ∃ lrp, Build deps b req = some (lrp, none)) ∧
    (∃ lrp err, Build deps b req = some (lrp, err)) ∧
    (∀ lrp e, Build deps b req = some (lrp, some e) → lrp = zeroLRP) := by
  have hdocker : req.DropletUri = "" → req.DockerImageUrl ≠ "" →
      ∃ lrp, Build deps b req = some (lrp, none) := by
    intro hd hi
    exact ⟨buildLRP req (convertDockerURI deps req.DockerImageUrl)
      (deps.urlJoin b.fileServerURL [route, b.dockerCircusPath]),
      by simp [Build, hd, hi, circusDownloadURL, hr]⟩
  refine ⟨⟨?_, ?_⟩, fun hd hi _ => hdocker hd hi, ?_, fun lrp e => Build_err_zero deps b req lrp e⟩
  · rintro ⟨lrp, h⟩
    rcases Build_ok_cases deps b req lrp h with ⟨hi, hd, _⟩ | ⟨hi, hd, _, circusPath, _, hs, _⟩
    · exact Or.inr ⟨hd, hi⟩
    · exact Or.inl ⟨hd, hi, circusPath, hs⟩
  · rintro (⟨hd, hi, circusPath, hs⟩ | ⟨hd, hi⟩)
    · exact ⟨buildLRP req "" (deps.urlJoin b.fileServerURL [route, circusPath]),
        by simp [Build, hd, hi, hs, circusDownloadURL, hr]⟩
    · exact hdocker hd hi
  · by_cases hd : req.DropletUri = "" <;> by_cases hi : req.DockerImageUrl = ""
    · exact ⟨zeroLRP, some BuildError.ErrAppSourceMissing, by simp [Build, hd, hi]⟩
    · obtain ⟨lrp, h⟩ := hdocker hd hi
      exact ⟨_, _, h⟩
    · cases hs : mapGet b.circuses req.Stack with
      | none =>
        exact ⟨zeroLRP, some BuildError.ErrNoCircusDefined, by simp [Build, hd, hi, hs]⟩
      | some circusPath =>
        exact ⟨buildLRP req "" (deps.urlJoin b.fileServerURL [route, circusPath]), none,
          by simp [Build, hd, hi, hs, circusDownloadURL, hr]⟩
    · exact ⟨zeroLRP, some BuildError.ErrMultipleAppSources, by simp [Build, hd, hi]⟩

/-- Witness of C20: a docker image with a stack that has no bundle is built. -/
theorem C20_build_succeeds_iff_witness :
    ∃ lrp, Build testDeps testBuilder
      { testRequest with DropletUri := "", DockerImageUrl := "user/repo", Stack := "none" } =
      some (lrp, none) :=
  (C20_build_succeeds_iff testDeps testBuilder
    { testRequest with DropletUri := "", DockerImageUrl := "user/repo", Stack := "none" }
    "/v1/static/" rfl).2.1 rfl (by decide) (by decide)

/-! ## The differ: conservation and batch boundaries -/

theorem inSyncOf_cons (m : GoMap DesiredLRPResponse) (f : CCDesiredAppFingerprint)
    (d : List CCDesiredAppFingerprint) :
    inSyncOf m (f :: d) = (match mapGet m f.ProcessGuid with
        | some lrp => if lrp.Annotation = f.ETag then [f] else []
        | none => []) ++
      inSyncOf (mapDelete m f.ProcessGuid) d := by
  unfold inSyncOf
  rw [withEarlier_cons, List.filter_cons]
  simp only [remainingAfter_nil, List.filter_map, List.map_map]
  have h : ((fun p : List CCDesiredAppFingerprint × CCDesiredAppFingerprint =>
        match mapGet (remainingAfter m p.1) p.2.ProcessGuid with
        | some lrp => decide (lrp.Annotation = p.2.ETag)
        | none => false) ∘
        Prod.map (fun t => f :: t) id) =
      (fun p => match mapGet (remainingAfter (mapDelete m f.ProcessGuid) p.1)
          p.2.ProcessGuid with
        | some lrp => decide (lrp.Annotation = p.2.ETag)
        | none => false) := by
    funext p
    simp [Function.comp, remainingAfter_cons]
  rw [h]
  have h2 : ∀ l : List (List CCDesiredAppFingerprint × CCDesiredAppFingerprint),
      List.map Prod.snd (List.map (Prod.map (fun t => f :: t) id) l) = List.map Prod.snd l := by
    intro l; simp [List.map_map, Function.comp]
  cases hg : mapGet m f.ProcessGuid with
  | none => simp [h2]
  | some lrp => by_cases he : lrp.Annotation = f.ETag <;> simp [he, h2]

theorem inSyncOf_append (m : GoMap DesiredLRPResponse) (a b : List CCDesiredAppFingerprint) :
    inSyncOf m (a ++ b) = inSyncOf m a ++ inSyncOf (remainingAfter m a) b := by
  induction a generalizing m with
  | nil => simp [inSyncOf, withEarlier_nil, remainingAfter_nil]
  | cons f a ih => simp [inSyncOf_cons, ih, remainingAfter_cons]

theorem flatten_inSync_batches (m : GoMap DesiredLRPResponse)
    (bs : List (List CCDesiredAppFingerprint)) :
    ((withEarlier bs).map (fun p => inSyncOf (remainingAfter m p.1.flatten) p.2)).flatten =
      inSyncOf m bs.flatten := by
  induction bs generalizing m with
  | nil => simp [withEarlier_nil, inSyncOf]
  | cons b bs ih =>
    rw [List.flatten_cons, inSyncOf_append, ← ih (remainingAfter m b), withEarlier_cons]
    simp only [List.map_cons, List.flatten_cons, List.flatten_nil, remainingAfter_nil,
      List.map_map]
    congr 2
    apply List.map_congr_left
    intro p _
    simp [Function.comp, remainingAfter_append]

theorem missingOf_subset (m : GoMap DesiredLRPResponse) (d : List CCDesiredAppFingerprint)
    (x : CCDesiredAppFingerprint) (h : x ∈ missingOf m d) : x ∈ d := by
  induction d generalizing m with
  | nil => simp [missingOf, withEarlier_nil] at h
  | cons f d ih =>
    rw [missingOf_cons] at h
    rcases List.mem_append.1 h with h1 | h1
    · by_cases hg : mapGet m f.ProcessGuid = none
      · simp only [hg, if_true, List.mem_singleton] at h1
        rw [h1]; exact List.mem_cons_self _ _
      · simp [hg] at h1
    · exact List.mem_cons_of_mem _ (ih _ h1)

theorem countGuid_nil (g : String) : countGuid g [] = 0 := rfl

theorem countGuid_append (g : String) (a b : List CCDesiredAppFingerprint) :
    countGuid g (a ++ b) = countGuid g a + countGuid g b := by
  simp [countGuid, List.countP_append]

theorem countGuid_singleton (g : String) (f : CCDesiredAppFingerprint) :
    countGuid g [f] = if f.ProcessGuid = g then 1 else 0 := by
  by_cases h : f.ProcessGuid = g <;> simp [countGuid, List.countP_cons, h]

/-- A batch is its missing, stale and in-sync fingerprints, up to order. -/
theorem batch_perm_classes (m : GoMap DesiredLRPResponse) (d : List CCDesiredAppFingerprint) :
    List.Perm d (missingOf m d ++ staleOf m d ++ inSyncOf m d) := by
  induction d generalizing m with
  | nil => simp [missingOf, staleOf, inSyncOf, withEarlier_nil]
  | cons f d ih =>
    have ih2 := ih (mapDelete m f.ProcessGuid)
    rw [List.perm_iff_count] at ih2 ⊢
    intro x
    have hx := ih2 x
    rw [missingOf_cons, staleOf_cons, inSyncOf_cons]
    simp only [List.count_append, List.count_cons] at hx ⊢
    cases hg : mapGet m f.ProcessGuid with
    | none =>
      simp only [if_true, List.count_cons, List.count_nil]
      omega
    | some lrp =>
      by_cases he : lrp.Annotation = f.ETag
      · simp only [he, if_true, reduceCtorEq, if_false, List.count_cons, List.count_nil]
        omega
      · simp only [he, if_false, reduceCtorEq, List.count_cons, List.count_nil]
        omega

theorem count_classes (m : GoMap DesiredLRPResponse) (d : List CCDesiredAppFingerprint)
    (g : String) :
    countGuid g (staleOf m d) + countGuid g (inSyncOf m d) +
        (if mapGet (remainingAfter m d) g = none then 0 else 1) =
      (if mapGet m g = none then 0 else 1) := by
  induction d generalizing m with
  | nil => simp [staleOf, inSyncOf, withEarlier_nil, remainingAfter_nil, countGuid]
  | cons f d ih =>
    have ih2 := ih (mapDelete m f.ProcessGuid)
    rw [mapGet_mapDelete] at ih2
    rw [staleOf_cons, inSyncOf_cons, remainingAfter_cons, countGuid_append, countGuid_append]
    by_cases hfg : f.ProcessGuid = g
    · subst hfg
      rw [if_pos rfl, if_pos rfl] at ih2
      cases hg : mapGet m f.ProcessGuid with
      | none =>
        simp only [countGuid_nil, eq_self, if_true]
        omega
      | some lrp =>
        by_cases he : lrp.Annotation = f.ETag
        · simp only [he, if_true, if_false, countGuid_nil, countGuid_singleton, reduceCtorEq,
            eq_self]
          omega
        · simp only [he, if_true, if_false, countGuid_nil, countGuid_singleton, reduceCtorEq,
            eq_self]
          omega
    · have hgf : ¬ g = f.ProcessGuid := fun e => hfg e.symm
      rw [if_neg hgf] at ih2
      cases hg : mapGet m f.ProcessGuid with
      | none =>
        simp only [countGuid_nil]
        omega
      | some lrp =>
        by_cases he : lrp.Annotation = f.ETag
        · simp only [he, if_true, if_false, countGuid_nil, countGuid_singleton, hfg]
          omega
        · simp only [he, if_true, if_false, countGuid_nil, countGuid_singleton, hfg]
          omega

theorem nodup_mapKeys_mapDelete {β : Type} (m : GoMap β) (k : String)
    (h : (mapKeys m).Nodup) : (mapKeys (mapDelete m k)).Nodup := by
  unfold mapKeys mapDelete
  exact List.Nodup.sublist (List.Sublist.map _ (List.filter_sublist _)) h

theorem length_mapDelete {β : Type} (m : GoMap β) (k : String) (v : β)
    (hn : (mapKeys m).Nodup) (hg : mapGet m k = some v) :
    (mapDelete m k).length + 1 = m.length := by
  induction m with
  | nil => simp [mapGet] at hg
  | cons kv rest ih =>
    obtain ⟨k1, v1⟩ := kv
    simp only [mapKeys, List.map_cons, List.nodup_cons] at hn
    by_cases h : k1 = k
    · subst h
      have hnone : mapGet rest k1 = none := (mapGet_eq_none_iff rest k1).2 hn.1
      have e := mapDelete_of_get_none rest k1 hnone
      unfold mapDelete at e ⊢
      rw [List.filter_cons_of_neg (by simp), e]
      rfl
    · simp only [mapGet, h, if_false] at hg
      have e := ih hn.2 hg
      unfold mapDelete at e ⊢
      rw [List.filter_cons_of_pos (by simpa using h)]
      simp only [List.length_cons]
      omega

theorem length_classes (m : GoMap DesiredLRPResponse) (d : List CCDesiredAppFingerprint)
    (hn : (mapKeys m).Nodup) :
    (staleOf m d).length + (inSyncOf m d).length + (remainingAfter m d).length = m.length := by
  induction d generalizing m with
  | nil => simp [staleOf, inSyncOf, withEarlier_nil, remainingAfter_nil]
  | cons f d ih =>
    have ih2 := ih (mapDelete m f.ProcessGuid) (nodup_mapKeys_mapDelete m _ hn)
    rw [staleOf_cons, inSyncOf_cons, remainingAfter_cons]
    cases hg : mapGet m f.ProcessGuid with
    | none =>
      rw [mapDelete_of_get_none m _ hg] at ih2 ⊢
      simpa using ih2
    | some lrp =>
      have hl := length_mapDelete m f.ProcessGuid lrp hn hg
      by_cases he : lrp.Annotation = f.ETag
      · simp [he]; omega
      · simp [he]; omega

theorem inSync_flatten (existing : List DesiredLRPResponse)
    (batches : List (List CCDesiredAppFingerprint)) :
    (inSyncMatches existing batches).flatten =
      inSyncOf (organizeLRPsByProcessGuid existing) batches.flatten := by
  unfold inSyncMatches
  exact flatten_inSync_batches _ _

theorem missing_flatten (existing : List DesiredLRPResponse)
    (batches : List (List CCDesiredAppFingerprint)) :
    (missingStream (Diff existing (normalRun batches))).flatten =
      missingOf (organizeLRPsByProcessGuid existing) batches.flatten := by
  rw [missingStream_Diff_normalRun, flatten_missing_batches]

theorem stale_flatten (existing : List DesiredLRPResponse)
    (batches : List (List CCDesiredAppFingerprint)) :
    (updatedStream (Diff existing (normalRun batches))).flatten =
      staleOf (organizeLRPsByProcessGuid existing) batches.flatten := by
  rw [updatedStream_Diff_normalRun, flatten_stale_batches]

theorem count_keys (m : GoMap DesiredLRPResponse) (g : String) (hn : (mapKeys m).Nodup) :
    (mapKeys m).count g = if mapGet m g = none then 0 else 1 := by
  by_cases h : mapGet m g = none
  · rw [if_pos h]
    exact List.count_eq_zero.2 ((mapGet_eq_none_iff m g).1 h)
  · rw [if_neg h]
    have hm : g ∈ mapKeys m := by
      by_contra hc
      exact h ((mapGet_eq_none_iff m g).2 hc)
    exact List.count_eq_one_of_mem hn hm

theorem length_index (existing : List DesiredLRPResponse) :
    (organizeLRPsByProcessGuid existing).length =
      ((existing.map (fun lrp => lrp.ProcessGuid)).dedup).length := by
  obtain ⟨h1, _, h3⟩ := organize_spec existing
  have hp : List.Perm (mapKeys (organizeLRPsByProcessGuid existing))
      ((existing.map (fun lrp => lrp.ProcessGuid)).dedup) := by
    rw [List.perm_ext_iff_of_nodup h1 (List.nodup_dedup _)]
    intro g
    rw [h3 g, List.mem_dedup, List.mem_map]
  have hl := hp.length_eq
  simpa [mapKeys] using hl

/-- C21. Conservation of snapshot entries: in a normal run the fingerprints
are, up to order, those sent as missing, those sent as stale and the in-sync
matches; every snapshot guid is met exactly once among the in-sync matches,
the stale lists and the returned deleted list, all taken together; so the
number of distinct snapshot guids is the number of in-sync matches plus the
total length of the stale lists plus the length of the deleted list; and no
deleted guid is the guid of a fingerprint of a missing or stale list. -/
theorem C21_conservation (existing : List DesiredLRPResponse)
    (batches : List (List CCDesiredAppFingerprint)) :
    ∃ deleted, returned (Diff existing (normalRun batches)) = [deleted] ∧
      List.Perm batches.flatten
        ((missingStream (Diff existing (normalRun batches))).flatten ++
          (updatedStream (Diff existing (normalRun batches))).flatten ++
          (inSyncMatches existing batches).flatten) ∧
      (∀ g, (∃ lrp ∈ existing, lrp.ProcessGuid = g) →
        countGuid g (inSyncMatches existing batches).flatten +
          countGuid g (updatedStream (Diff existing (normalRun batches))).flatten +
          deleted.count g = 1) ∧
      ((existing.map (fun lrp => lrp.ProcessGuid)).dedup).length =
        (inSyncMatches existing batches).flatten.length +
          (updatedStream (Diff existing (normalRun batches))).flatten.length +
          deleted.length ∧
      (∀ g ∈ deleted, ∀ l ∈ missingStream (Diff existing (normalRun batches)),
        ∀ f ∈ l, f.ProcessGuid ≠ g) ∧
      (∀ g ∈ deleted, ∀ l ∈ updatedStream (Diff existing (normalRun batches)),
        ∀ f ∈ l, f.ProcessGuid ≠ g) := by
  obtain ⟨h1, h2, h3⟩ := organize_spec existing
  obtain ⟨deleted, hr, _, hm⟩ := deleted_spec existing batches
  have hdel : deleted = mapKeys (remainingAfter (organizeLRPsByProcessGuid existing)
      batches.flatten) := by
    have e := returned_Diff_normalRun existing batches
    rw [hr, deleteList_eq_keys _ h2] at e
    exact List.cons.inj e |>.1
  refine ⟨deleted, hr, ?_, ?_, ?_, ?_, ?_⟩
  · rw [missing_flatten, stale_flatten, inSync_flatten]
    exact batch_perm_classes _ _
  · intro g hg
    have hc := count_classes (organizeLRPsByProcessGuid existing) batches.flatten g
    have hk := count_keys (remainingAfter (organizeLRPsByProcessGuid existing) batches.flatten) g
      (nodup_mapKeys_remainingAfter _ _ h1)
    have hin : ¬ mapGet (organizeLRPsByProcessGuid existing) g = none := by
      rw [mapGet_eq_none_iff, h3 g]
      exact fun hn => hn hg
    rw [if_neg hin] at hc
    rw [inSync_flatten, stale_flatten, hdel, hk]
    omega
  · have hl := length_classes (organizeLRPsByProcessGuid existing) batches.flatten h1
    rw [← length_index, inSync_flatten, stale_flatten, hdel]
    simp only [mapKeys, List.length_map]
    omega
  · intro g hg l hl f hf hfg
    have hf2 : f ∈ batches.flatten := by
      apply missingOf_subset (organizeLRPsByProcessGuid existing)
      rw [← missing_flatten]
      exact List.mem_flatten.2 ⟨l, hl, hf⟩
    exact ((hm g).1 hg).2 f hf2 hfg
  · intro g hg l hl f hf hfg
    have hf2 : f ∈ batches.flatten := by
      apply (mem_staleOf (organizeLRPsByProcessGuid existing) _ _ _).1
      rw [← stale_flatten]
      exact List.mem_flatten.2 ⟨l, hl, hf⟩
    exact ((hm g).1 hg).2 f hf2 hfg

/-- Witness of C21: the snapshot holds `A` twice, `B` and `C`; `A` is matched
in sync and then named again, `B` is stale, `C` is deleted. -/
theorem C21_conservation_witness :
    ∃ deleted, returned (Diff [⟨"A", "e1"⟩, ⟨"A", "e2"⟩, ⟨"B", "e1"⟩, ⟨"C", "e1"⟩]
        (normalRun [[⟨"A", "e2"⟩, ⟨"X", "eX"⟩], [⟨"B", "e2"⟩, ⟨"A", "e2"⟩]])) = [deleted] ∧
      countGuid "A" (inSyncMatches [⟨"A", "e1"⟩, ⟨"A", "e2"⟩, ⟨"B", "e1"⟩, ⟨"C", "e1"⟩]
          [[⟨"A", "e2"⟩, ⟨"X", "eX"⟩], [⟨"B", "e2"⟩, ⟨"A", "e2"⟩]]).flatten +
        countGuid "A" (updatedStream (Diff [⟨"A", "e1"⟩, ⟨"A", "e2"⟩, ⟨"B", "e1"⟩, ⟨"C", "e1"⟩]
          (normalRun [[⟨"A", "e2"⟩, ⟨"X", "eX"⟩], [⟨"B", "e2"⟩, ⟨"A", "e2"⟩]]))).flatten +
        deleted.count "A" = 1 :=
  match C21_conservation [⟨"A", "e1"⟩, ⟨"A", "e2"⟩, ⟨"B", "e1"⟩, ⟨"C", "e1"⟩]
      [[⟨"A", "e2"⟩, ⟨"X", "eX"⟩], [⟨"B", "e2"⟩, ⟨"A", "e2"⟩]] with
  | ⟨deleted, h1, _, h3, _⟩ => ⟨deleted, h1, h3 "A" (by decide)⟩

/-- C22. Batch boundaries do not change the classification: the one missing
list and the one stale list that `Diff` sends for the single batch
`b1 ++ ... ++ bn` are the missing lists, respectively the stale lists, of the
run over `b1, ..., bn` put together, and the two runs return the same deleted
guids. -/
theorem C22_batch_boundaries (existing : List DesiredLRPResponse)
    (batches : List (List CCDesiredAppFingerprint)) :
    missingStream (Diff existing (normalRun [batches.flatten])) =
      [(missingStream (Diff existing (normalRun batches))).flatten] ∧
    updatedStream (Diff existing (normalRun [batches.flatten])) =
      [(updatedStream (Diff existing (normalRun batches))).flatten] ∧
    ∃ d1 d2, returned (Diff existing (normalRun [batches.flatten])) = [d1] ∧
      returned (Diff existing (normalRun batches)) = [d2] ∧ d1.Nodup ∧ d2.Nodup ∧
      ∀ g, g ∈ d1 ↔ g ∈ d2 := by
  refine ⟨?_, ?_, ?_⟩
  · rw [missing_flatten, missingStream_Diff_normalRun]
    simp [withEarlier_cons, withEarlier_nil, remainingAfter_nil]
  · rw [stale_flatten, updatedStream_Diff_normalRun]
    simp [withEarlier_cons, withEarlier_nil, remainingAfter_nil]
  · obtain ⟨d1, hr1, hn1, hm1⟩ := deleted_spec existing [batches.flatten]
    obtain ⟨d2, hr2, hn2, hm2⟩ := deleted_spec existing batches
    refine ⟨d1, d2, hr1, hr2, hn1, hn2, ?_⟩
    intro g
    rw [hm1 g, hm2 g]
    simp

/-! ## The recipe builder: the split of the image and the weight -/

theorem last_occurrence (s : List Char) (c : Char) (h : c ∈ s) :
    ∃ a b, s = a ++ c :: b ∧ c ∉ b := by
  obtain ⟨as, bs, he, hn⟩ := List.eq_append_cons_of_mem (List.mem_reverse.2 h)
  refine ⟨bs.reverse, as.reverse, ?_, fun hm => hn (List.mem_reverse.1 hm)⟩
  have e := congrArg List.reverse he
  simpa using e

/-- C23. The split into repository and tag is lossless: the tag holds no `/`
and no `:`; with a tag that is not empty, repository, `:` and tag put
together give the string back; with an empty tag the repository is the whole
string or the string without a `:` at its end; and for a string without `:`
the repository is the whole string. -/
theorem C23_split_lossless (s : String) :
    '/' ∉ (parseDockerRepositoryTag s).2.data ∧ ':' ∉ (parseDockerRepositoryTag s).2.data ∧
    ((parseDockerRepositoryTag s).2 ≠ "" →
      (parseDockerRepositoryTag s).1 ++ ":" ++ (parseDockerRepositoryTag s).2 = s) ∧
    ((parseDockerRepositoryTag s).2 = "" →
      (parseDockerRepositoryTag s).1 = s ∨ (parseDockerRepositoryTag s).1 ++ ":" = s) ∧
    (':' ∉ s.data → (parseDockerRepositoryTag s).1 = s) := by
  by_cases hc : ':' ∈ s.data
  · obtain ⟨a, b, he, hb⟩ := last_occurrence s.data ':' hc
    have hs : s = String.mk a ++ ":" ++ String.mk b := by
      apply String.ext
      simp [String.data_append, he]
    have hp := parse_split (String.mk a) (String.mk b) hb
    rw [← hs] at hp
    by_cases hsl : '/' ∈ b
    · rw [if_pos hsl] at hp
      rw [hp]
      refine ⟨by simp, by simp, fun h => absurd rfl h, fun _ => Or.inl rfl, fun h => absurd hc h⟩
    · rw [if_neg hsl] at hp
      rw [hp]
      refine ⟨hsl, hb, fun _ => hs.symm, ?_, fun h => absurd hc h⟩
      intro h0
      right
      have hb0 : String.mk b = "" := h0
      rw [hs, hb0]
      apply String.ext
      simp [String.data_append]
  · rw [parse_no_colon s hc]
    exact ⟨by simp, by simp, fun h => absurd rfl h, fun _ => Or.inl rfl, fun _ => rfl⟩

/-- Witness of C23: an image with a registry port and a tag, and an image that
ends with `:`. -/
theorem C23_split_lossless_witness :
    (parseDockerRepositoryTag "host:5000/user/repo:tag").1 ++ ":" ++
        (parseDockerRepositoryTag "host:5000/user/repo:tag").2 = "host:5000/user/repo:tag" ∧
    ((parseDockerRepositoryTag "repo:").1 = "repo:" ∨
      (parseDockerRepositoryTag "repo:").1 ++ ":" = "repo:") :=
  ⟨(C23_split_lossless "host:5000/user/repo:tag").2.2.1 (by decide),
   (C23_split_lossless "repo:").2.2.2.1 (by decide)⟩

theorem cpuWeight_low (m : Int) (h : m < 256) : cpuWeight m = 1 := by
  unfold cpuWeight
  simp only [MaxCpuProxy, MinCpuProxy]
  rw [if_neg (by omega), if_pos h]

theorem cpuWeight_high (m : Int) (h : 8192 < m) : cpuWeight m = 100 := by
  unfold cpuWeight
  simp only [MaxCpuProxy]
  rw [if_pos (by omega)]

/-- C24. The CPU weight is monotone in the memory, over all integers, the two
thresholds 256 and 8192 included. -/
theorem C24_cpu_weight_monotone (m1 m2 : Int) (h : m1 ≤ m2) : cpuWeight m1 ≤ cpuWeight m2 := by
  by_cases l1 : m1 < 256
  · rw [cpuWeight_low m1 l1]
    by_cases l2 : m2 < 256
    · rw [cpuWeight_low m2 l2]
    · by_cases u2 : 8192 < m2
      · rw [cpuWeight_high m2 u2]; omega
      · have e2 := cpuWeight_mid m2 (by omega) (by omega)
        omega
  · by_cases u1 : 8192 < m1
    · rw [cpuWeight_high m1 u1, cpuWeight_high m2 (by omega)]
    · have e1 := cpuWeight_mid m1 (by omega) (by omega)
      by_cases u2 : 8192 < m2
      · rw [cpuWeight_high m2 u2]; omega
      · have e2 := cpuWeight_mid m2 (by omega) (by omega)
        omega

/-- Witness of C24: across each threshold, and from a negative memory to the
largest weight. -/
theorem C24_cpu_weight_monotone_witness :
    cpuWeight 255 ≤ cpuWeight 256 ∧ cpuWeight 8192 ≤ cpuWeight 8193 ∧
    cpuWeight (-7) ≤ cpuWeight 100000 :=
  ⟨C24_cpu_weight_monotone 255 256 (by decide), C24_cpu_weight_monotone 8192 8193 (by decide),
    C24_cpu_weight_monotone (-7) 100000 (by decide)⟩

end Nsync
